import Mathlib

/-!
Verification development for the video job queue module
(modules/video_queue.py of FramePack-Studio).

The embedding is shallow: Python values are modelled by the inductive
type PyVal, the Job dataclass by the structure Job, and the
VideoJobQueue engine by the structure QueueState together with a step
relation Step that has one constructor per lock-protected critical
section of the Python code (producer calls submit / cancel /
update_progress and the phases of the single worker loop).  Machine
floats (timestamps, LoRA weights) are modelled by rationals: the code
only stores, copies and order-compares them.  External collaborators
(PIL thumbnail rendering, base64, the on-disk queue.json write, the
worker routine behind AsyncStream) are modelled abstractly, as the
spec designates them out of scope; each such point is marked by a
comment at the definition.
-/

/-- Model of the Python values that flow through the queue module:
JSON-style scalars and containers, NumPy arrays and other opaque
objects (both identified by an abstract tag).  Dicts are association
lists in insertion order, matching Python dict iteration order. -/
inductive PyVal where
  | none
  | bool (b : Bool)
  | num (q : Rat)
  | str (s : String)
  | list (xs : List PyVal)
  | dict (kvs : List (PyVal × PyVal))
  | ndarray (tag : Nat)
  | obj (tag : Nat)

mutual

/-- Structural equality on PyVal (Python == restricted to equal-shaped
values; the cross-type numeric equalities 1 == True etc. are not
modelled — no claim compares values across types). -/
def pyBeq : PyVal → PyVal → Bool
  | .none, .none => true
  | .bool a, .bool b => a == b
  | .num a, .num b => a == b
  | .str a, .str b => a == b
  | .list xs, .list ys => pyBeqList xs ys
  | .dict xs, .dict ys => pyBeqDict xs ys
  | .ndarray a, .ndarray b => a == b
  | .obj a, .obj b => a == b
  | _, _ => false

def pyBeqList : List PyVal → List PyVal → Bool
  | [], [] => true
  | x :: xs, y :: ys => pyBeq x y && pyBeqList xs ys
  | _, _ => false

def pyBeqDict : List (PyVal × PyVal) → List (PyVal × PyVal) → Bool
  | [], [] => true
  | (k1, v1) :: xs, (k2, v2) :: ys => pyBeq k1 k2 && pyBeq v1 v2 && pyBeqDict xs ys
  | _, _ => false

end

mutual

theorem pyBeq_iff (a b : PyVal) : pyBeq a b = true ↔ a = b := by
  cases a <;> cases b <;> simp [pyBeq]
  · exact pyBeqList_iff _ _
  · exact pyBeqDict_iff _ _

theorem pyBeqList_iff (xs ys : List PyVal) : pyBeqList xs ys = true ↔ xs = ys := by
  match xs, ys with
  | [], [] => simp [pyBeqList]
  | [], _ :: _ => simp [pyBeqList]
  | _ :: _, [] => simp [pyBeqList]
  | x :: xs, y :: ys => simp [pyBeqList, pyBeq_iff x y, pyBeqList_iff xs ys]

theorem pyBeqDict_iff (xs ys : List (PyVal × PyVal)) : pyBeqDict xs ys = true ↔ xs = ys := by
  match xs, ys with
  | [], [] => simp [pyBeqDict]
  | [], _ :: _ => simp [pyBeqDict]
  | _ :: _, [] => simp [pyBeqDict]
  | (k1, v1) :: xs, (k2, v2) :: ys =>
      simp [pyBeqDict, pyBeq_iff k1 k2, pyBeq_iff v1 v2, pyBeqDict_iff xs ys,
        Prod.ext_iff, and_assoc]

end

instance : DecidableEq PyVal := fun a b => decidable_of_iff _ (pyBeq_iff a b)

/-- Python truthiness (bool(v)).  For ndarray NumPy raises on
multi-element arrays; the queue code never tests an array for truth on
any path modelled here, so we fix an arbitrary total value. -/
def truthy : PyVal → Bool
  | .none => false
  | .bool b => b
  | .num q => q != 0
  | .str s => !s.isEmpty
  | .list xs => !xs.isEmpty
  | .dict kvs => !kvs.isEmpty
  | .ndarray _ => true
  | .obj _ => true

/-- The wrap-into-a-list normalisation used three times in
serialize_job: x if isinstance(x, list) else ([x] if x is not None
else []). -/
def asPyList : PyVal → List PyVal
  | .list xs => xs
  | .none => []
  | v => [v]

/-- First-match lookup in a dict, i.e. kvs[k] / kvs.get(k); Python
dicts have unique keys, so first match is the match. -/
def pyLookup : List (PyVal × PyVal) → PyVal → Option PyVal
  | [], _ => Option.none
  | kv :: rest, k => if kv.1 = k then some kv.2 else pyLookup rest k

/-- dict.get(k, d). -/
def pyGet (kvs : List (PyVal × PyVal)) (k d : PyVal) : PyVal :=
  (pyLookup kvs k).getD d

/-- dict assignment kvs[k] = v: overwrite in place if the key exists
(Python keeps the original insertion position), else append. -/
def dictSet : List (PyVal × PyVal) → PyVal → PyVal → List (PyVal × PyVal)
  | [], k, v => [(k, v)]
  | kv :: rest, k, v => if kv.1 = k then (k, v) :: rest else kv :: dictSet rest k v

/-- Values accepted by json.dumps as dict keys (str, int, float, bool,
None). -/
def jsonKeyOk : PyVal → Bool
  | .str _ => true
  | .num _ => true
  | .bool _ => true
  | .none => true
  | _ => false

mutual

/-- Whether json.dumps(v) succeeds: scalars and containers of
serializable values; ndarray and other opaque objects raise
TypeError. -/
def jsonSerializable : PyVal → Bool
  | .none => true
  | .bool _ => true
  | .num _ => true
  | .str _ => true
  | .ndarray _ => false
  | .obj _ => false
  | .list xs => jsonSerializableList xs
  | .dict kvs => jsonSerializableDict kvs

def jsonSerializableList : List PyVal → Bool
  | [] => true
  | x :: xs => jsonSerializable x && jsonSerializableList xs

def jsonSerializableDict : List (PyVal × PyVal) → Bool
  | [] => true
  | (k, v) :: kvs => jsonKeyOk k && jsonSerializable v && jsonSerializableDict kvs

end

/-- Python list.index as an option: index of the first element equal
to x, or failure (ValueError). -/
def pyIndex : List PyVal → PyVal → Option Nat
  | [], _ => Option.none
  | y :: ys, x => if y == x then some 0 else (pyIndex ys x).map (fun n => n + 1)

/-- The float(v) builtin restricted to the values the LoRA weight path
can see: numbers and bools convert, everything else fails (TypeError /
ValueError).  Numeric strings would also convert in Python; string
weights are never produced by the callers of this module and are not
relied on below. -/
def floatOf : PyVal → Option Rat
  | .num q => some q
  | .bool b => some (if b then 1 else 0)
  | _ => Option.none

/-- The JobStatus enum. -/
inductive JobStatus where
  | pending
  | running
  | completed
  | failed
  | cancelled
deriving DecidableEq

/-- The .value string of each JobStatus member. -/
def JobStatus.value : JobStatus → String
  | .pending => "pending"
  | .running => "running"
  | .completed => "completed"
  | .failed => "failed"
  | .cancelled => "cancelled"

/-- The Job dataclass.  Timestamps are rationals standing for the
floats of time.time(); the uuid4 string identifiers are modelled as
naturals issued by a counter (rendered to strings in snapshots) —
only freshness of ids is used.  The AsyncStream held in the stream
field is an external collaborator; the queue core only pushes control
signals into its input side, recorded here in streamInput, and reads
worker events from its output side, which appear below as parameters
of the drain steps of the worker loop. -/
structure Job where
  id : Nat
  params : PyVal
  status : JobStatus
  createdAt : Rat
  startedAt : Option Rat := Option.none
  completedAt : Option Rat := Option.none
  error : Option String := Option.none
  result : Option PyVal := Option.none
  progressData : PyVal := PyVal.none
  queuePosition : Option Rat := Option.none
  streamInput : List String := []
  inputImage : Option PyVal := Option.none
  latentType : Option PyVal := Option.none
  thumbnail : Option String := Option.none
  generationType : PyVal := PyVal.none
deriving DecidableEq

/-- PNG thumbnail of a 100x100 scaled copy of an image array, as a
data URL.  PIL resizing and base64 encoding are external collaborators
(spec section 1); the encoding is abstracted to a distinct string per
source array, which is all the claims depend on. -/
def arrayThumbnail (tag : Nat) : String :=
  "data:image/png;base64,<array-thumbnail " ++ toString tag ++ ">"

/-- The generic blue 100x100 video placeholder thumbnail (PIL
rendering abstracted as for arrayThumbnail). -/
def videoThumbnail : String :=
  "data:image/png;base64,<blue-100x100>"

/-- The fixed latent-type colour table, defaulting to black, applied
to the raw params value (a non-string key falls to the default, as
dict.get does). -/
def latentColor : PyVal → Nat × Nat × Nat
  | .str "Black" => (0, 0, 0)
  | .str "White" => (255, 255, 255)
  | .str "Noise" => (128, 128, 128)
  | .str "Green Screen" => (0, 177, 64)
  | _ => (0, 0, 0)

/-- The 100x100 single-colour square thumbnail for a latent type (PIL
rendering abstracted as for arrayThumbnail). -/
def latentThumbnail (v : PyVal) : String :=
  "data:image/png;base64,<square " ++ toString (latentColor v).1 ++ " "
    ++ toString (latentColor v).2.1 ++ " " ++ toString (latentColor v).2.2 ++ ">"

/-- The input_image / latent_type branch of Job.__post_init__:
returns (input_image, latent_type, thumbnail).  An input_image entry
that is present but None falls through to the latent_type branch,
exactly as the elif does. -/
def thumbInit (kvs : List (PyVal × PyVal)) : Option PyVal × Option PyVal × Option String :=
  match pyLookup kvs (.str "input_image") with
  | some v =>
      if v = .none then
        match pyLookup kvs (.str "latent_type") with
        | some lv => (Option.none, some lv, some (latentThumbnail lv))
        | Option.none => (Option.none, Option.none, Option.none)
      else
        (some v, Option.none,
          match v with
          | .ndarray tag => some (arrayThumbnail tag)
          | .str _ => some videoThumbnail
          | _ => Option.none)
  | Option.none =>
      match pyLookup kvs (.str "latent_type") with
      | some lv => (Option.none, some lv, some (latentThumbnail lv))
      | Option.none => (Option.none, Option.none, Option.none)

/-- Job construction as performed by add_job plus __post_init__, for a
params mapping kvs: status Pending, created_at from the clock,
progress_data {}, generation_type = params.get("model_type",
"Original"), and the thumbnail fields from thumbInit. -/
def mkJobFromDict (id : Nat) (kvs : List (PyVal × PyVal)) (t : Rat) : Job :=
  { id := id
    params := .dict kvs
    status := .pending
    createdAt := t
    progressData := .dict []
    generationType := pyGet kvs (.str "model_type") (.str "Original")
    inputImage := (thumbInit kvs).1
    latentType := (thumbInit kvs).2.1
    thumbnail := (thumbInit kvs).2.2 }

/-- A Python int index, as computed on line 173 of serialize_job:
loaded_names.index(name) if loaded_names else -1.  A failing .index
call (ValueError) is the Option.none case. -/
def loraIndex (names : List PyVal) (name : PyVal) : Option Int :=
  if names.isEmpty then some (-1)
  else (pyIndex names name).map (fun n => (n : Int))

/-- The weight resolution of serialize_job lines 171-188 for one
selected LoRA name: locate the name in the loaded-name list, read the
parallel weight (guarded: non-empty values list and index in range,
else 1.0), unwrap a single-element list, convert with float(); every
caught failure (ValueError from .index, or a failing conversion)
yields the default weight 1.0. -/
def resolveLoraWeight (names values : List PyVal) (name : PyVal) : Rat :=
  match loraIndex names name with
  | Option.none => 1
  | some idx =>
      let weight : PyVal :=
        if !values.isEmpty && decide (0 ≤ idx) && decide (idx < (values.length : Int)) then
          values.getD idx.toNat (.num 1)
        else .num 1
      let weightValue : PyVal :=
        match weight with
        | .list xs => xs.headD (.num 1)
        | w => w
      match floatOf weightValue with
      | some q => q
      | Option.none => 1

/-- The lora_data dictionary built by the for-loop of serialize_job
lines 169-188 (a duplicated selected name overwrites its own entry,
as the Python dict assignment does). -/
def buildLoraAux (names values : List PyVal) (acc : List (PyVal × PyVal)) :
    List PyVal → List (PyVal × PyVal)
  | [] => acc
  | n :: rest =>
      buildLoraAux names values (dictSet acc n (.num (resolveLoraWeight names values n))) rest

/-- The complete name-to-weight mapping for a selected-LoRA list. -/
def buildLoraData (names values sel : List PyVal) : List (PyVal × PyVal) :=
  buildLoraAux names values [] sel

/-- The per-entry filter of serialize_job lines 139-148: drop the
input_image / end_frame_image / stream keys, then keep an entry only
if json.dumps on the one-entry dict succeeds. -/
def paramEntryOk (kv : PyVal × PyVal) : Bool :=
  kv.1 != .str "input_image" && kv.1 != .str "end_frame_image" && kv.1 != .str "stream"
    && jsonKeyOk kv.1 && jsonSerializable kv.2

/-- serialize_job lines 150-191: when params has a truthy
selected_loras entry, project it (together with lora_values and
lora_loaded_names, each normalised by asPyList) into the loras
name-to-weight dict and store it under the "loras" key. -/
def withLoraData (kvs sp : List (PyVal × PyVal)) : List (PyVal × PyVal) :=
  match pyLookup kvs (.str "selected_loras") with
  | Option.none => sp
  | some sv =>
      if truthy sv then
        let sel := asPyList sv
        let values := asPyList (pyGet kvs (.str "lora_values") (.list []))
        let names := asPyList (pyGet kvs (.str "lora_loaded_names") (.list []))
        dictSet sp (.str "loras") (.dict (buildLoraData names values sel))
      else sp

/-- PyVal image of an optional float field (None when unset). -/
def optRat : Option Rat → PyVal
  | some q => .num q
  | Option.none => .none

/-- PyVal image of an optional string field (None when unset). -/
def optStr : Option String → PyVal
  | some s => .str s
  | Option.none => .none

/-- The note of the minimal fallback record of serialize_job lines
203-207.  The Python text interpolates str(e) of the caught exception;
the model fixes the message of the one modelled failure mode (a params
object that is not a mapping, whose .items() call raises). -/
def serializeFailureNote : String :=
  "Error serializing: params object is not a mapping"

/-- serialize_job: the JSON-compatible snapshot of one job.  The body
of the Python try block can only raise when job.params is not a dict
(its .items() call fails before anything else does); that failure mode
is the second branch, returning the minimal fallback record of the
except handler.  The thumbnail is deliberately never read (lines
195-197 of the source are commented out). -/
def serializeJob (job : Job) : PyVal :=
  match job.params with
  | .dict kvs =>
      .dict [(.str "id", .str (toString job.id)),
             (.str "status", .str job.status.value),
             (.str "created_at", .num job.createdAt),
             (.str "started_at", optRat job.startedAt),
             (.str "completed_at", optRat job.completedAt),
             (.str "error", optStr job.error),
             (.str "result", job.result.getD .none),
             (.str "queue_position", optRat job.queuePosition),
             (.str "generation_type", job.generationType),
             (.str "params", .dict (withLoraData kvs (kvs.filter paramEntryOk)))]
  | _ =>
      .dict [(.str "id", .str (toString job.id)),
             (.str "status", .str job.status.value),
             (.str "error", .str serializeFailureNote)]

/-- Lookup of a string key in a serialized record. -/
def recordGet (r : PyVal) (k : String) : Option PyVal :=
  match r with
  | .dict kvs => pyLookup kvs (.str k)
  | _ => Option.none

/-- The position of the single worker thread inside one iteration of
_worker_loop: idle (about to take from the admission queue), running
jid (job claimed, worker routine launched, draining its stream), or
finalizing jid c (the drain has ended; c is the job_completed local of
lines 347/374/408/428 — false only when the drain was torn down
without reaching any break, the interrupted case of lines 436-439). -/
inductive WPhase where
  | idle
  | running (jid : Nat)
  | finalizing (jid : Nat) (jobCompleted : Bool)
deriving DecidableEq

/-- The state of a VideoJobQueue: the jobs dict (association by the
id field), the FIFO admission queue of ids, current_job (a reference
into the jobs dict, kept as an id), the is_processing flag, the
fresh-id counter standing for uuid4, and the worker-thread phase. -/
structure QueueState where
  jobs : List Job
  queueIds : List Nat
  currentJob : Option Nat
  isProcessing : Bool
  nextId : Nat
  phase : WPhase
deriving DecidableEq

/-- The state right after VideoJobQueue.__init__. -/
def initState : QueueState :=
  { jobs := [], queueIds := [], currentJob := Option.none,
    isProcessing := false, nextId := 0, phase := .idle }

/-- Lookup self.jobs.get(id). -/
def findJob : List Job → Nat → Option Job
  | [], _ => Option.none
  | j :: rest, i => if j.id = i then some j else findJob rest i

/-- In-place mutation of the job object with the given id (Python
mutates the Job held in the dict; all references observe it). -/
def updateJob (jobs : List Job) (id : Nat) (f : Job → Job) : List Job :=
  jobs.map (fun j => if j.id = id then f j else j)

/-- add_job (lines 231-254): construct a fresh Pending job, insert it
into the jobs dict and the admission queue, then save the queue
snapshot to queue.json outside the lock.  The write is an external
effect whose outcome is the persistOk argument (unused by design); both the try/except
inside save_queue_to_json and the wrapper try/except in add_job
swallow a failure, so neither the returned id nor the state depends
on it. -/
def addJob (s : QueueState) (kvs : List (PyVal × PyVal)) (t : Rat) (_persistOk : Bool) :
    QueueState × Nat :=
  let job := mkJobFromDict s.nextId kvs t
  ({ s with jobs := s.jobs ++ [job],
            queueIds := s.queueIds ++ [job.id],
            nextId := s.nextId + 1 }, job.id)

/-- cancel_job (lines 266-281): Pending, mark Cancelled with
completed_at; Running, push the end signal into the stream input side
and mark Cancelled with completed_at; otherwise (absent or terminal)
change nothing and report False. -/
def cancelJob (s : QueueState) (id : Nat) (t : Rat) : QueueState × Bool :=
  match findJob s.jobs id with
  | Option.none => (s, false)
  | some j =>
      if j.status = .pending then
        let f := fun j => { j with status := JobStatus.cancelled, completedAt := some t }
        ({ s with jobs := updateJob s.jobs id f }, true)
      else if j.status = .running then
        let f := fun j => { j with streamInput := j.streamInput ++ ["end"],
                                   status := JobStatus.cancelled, completedAt := some t }
        ({ s with jobs := updateJob s.jobs id f }, true)
      else (s, false)

/-- get_queue_position (lines 283-302): 0 when Running; for Pending,
1 plus the count of Pending jobs with strictly earlier created_at;
None when the id is unknown or the status is another terminal one. -/
def getQueuePosition (s : QueueState) (id : Nat) : Option Nat :=
  match findJob s.jobs id with
  | Option.none => Option.none
  | some j =>
      if j.status = .running then some 0
      else if j.status ≠ .pending then Option.none
      else some (1 + s.jobs.countP
        (fun j2 => j2.status == JobStatus.pending && decide (j2.createdAt < j.createdAt)))

/-- update_job_progress (lines 304-309): overwrite progress_data,
no-op on an unknown id. -/
def updateJobProgress (s : QueueState) (id : Nat) (d : PyVal) : QueueState :=
  match findJob s.jobs id with
  | some _ => { s with jobs := updateJob s.jobs id (fun j => { j with progressData := d }) }
  | Option.none => s

/-- The claim critical section of _worker_loop (lines 317-345), taken
when the admission queue yields an id: discard it if the job is gone
or already Cancelled; put it back at the tail if a job is already
being processed (busy-requeue); otherwise mark the job Running with
started_at, record it as current_job and raise is_processing. -/
def claimStep (s : QueueState) (t : Rat) : QueueState :=
  match s.queueIds with
  | [] => s
  | id :: rest =>
      match findJob s.jobs id with
      | Option.none => { s with queueIds := rest }
      | some j =>
          if j.status = .cancelled then { s with queueIds := rest }
          else if s.isProcessing then { s with queueIds := rest ++ [id] }
          else { s with
                  queueIds := rest,
                  jobs := updateJob s.jobs id
                    (fun j => { j with status := .running, startedAt := some t }),
                  currentJob := some id,
                  isProcessing := true,
                  phase := .running id }

/-- Stream drain, file event (lines 392-395): record the artifact
reference on the job. -/
def drainFileStep (s : QueueState) (jid : Nat) (data : PyVal) : QueueState :=
  { s with jobs := updateJob s.jobs jid (fun j => { j with result := some data }) }

/-- Stream drain, progress event (lines 397-404): overwrite
progress_data with the three-field dict. -/
def drainProgressStep (s : QueueState) (jid : Nat) (preview desc html : PyVal) : QueueState :=
  { s with jobs := updateJob s.jobs jid (fun j =>
      { j with progressData := .dict [(.str "preview", preview), (.str "desc", desc),
                                      (.str "html", html)] }) }

/-- Stream drain, end event (lines 406-409): job_completed := True and
leave the drain loop. -/
def drainEndStep (s : QueueState) (jid : Nat) : QueueState :=
  { s with phase := .finalizing jid true }

/-- Stream drain, cancellation check (lines 370-375): when the job has
been cancelled, job_completed := True and leave the drain loop. -/
def drainCancelStep (s : QueueState) (jid : Nat) : QueueState :=
  { s with phase := .finalizing jid true }

/-- The routine-level except handler (lines 420-428): an exception
from the worker-function launch (for example the worker function was
never set, or async_run rejected the params) marks the job Failed with
the exception text and completed_at, sets job_completed := True, and
falls into finalization.  The status write is unguarded in the source:
it does not check whether the job is still Running. -/
def routineErrorStep (s : QueueState) (jid : Nat) (msg : String) (t : Rat) : QueueState :=
  { s with
      jobs := updateJob s.jobs jid (fun j =>
        { j with status := .failed, error := some msg, completedAt := some t }),
      phase := .finalizing jid true }

/-- A drain torn down by an interruption that bypasses the except
handler of line 420 (a BaseException such as KeyboardInterrupt): the
finally block still runs, with job_completed left False. -/
def interruptStep (s : QueueState) (jid : Nat) : QueueState :=
  { s with phase := .finalizing jid false }

/-- The finally block (lines 430-446): if the job is still Running,
move it to Completed (job_completed) or to Failed with the
interruption message, recording completed_at; in every case drop
is_processing and current_job. -/
def finalizeStep (s : QueueState) (jid : Nat) (c : Bool) (t : Rat) : QueueState :=
  { s with
      jobs := updateJob s.jobs jid (fun j =>
        if j.status = .running then
          if c then { j with status := .completed, completedAt := some t }
          else { j with status := .failed,
                        error := some "Job processing was interrupted",
                        completedAt := some t }
        else j),
      isProcessing := false,
      currentJob := Option.none,
      phase := .idle }

/-- The outer except handler of the loop (lines 448-461): reset
is_processing, and if a current job is set, force it to Failed with
the loop-error text and completed_at and clear the pointer.  The
status write is again unguarded. -/
def outerErrorStep (s : QueueState) (msg : String) (t : Rat) : QueueState :=
  match s.currentJob with
  | some cid =>
      { s with
          jobs := updateJob s.jobs cid (fun j =>
            { j with status := .failed, error := some ("Worker loop error: " ++ msg),
                     completedAt := some t }),
          currentJob := Option.none,
          isProcessing := false,
          phase := .idle }
  | Option.none => { s with isProcessing := false, phase := .idle }

/-- One atomic transition of the queue engine: a producer call
(submit, cancel, update_progress — each holds the table lock for its
whole body) or one critical section of the worker loop.  The worker
constructors carry the enabling phase; the drain-event payloads and
error texts are free parameters, since they originate in the external
worker routine. -/
inductive Step : QueueState → QueueState → Prop where
  | submit (s : QueueState) (kvs : List (PyVal × PyVal)) (t : Rat) (pf : Bool) :
      Step s (addJob s kvs t pf).1
  | cancel (s : QueueState) (id : Nat) (t : Rat) :
      Step s (cancelJob s id t).1
  | progress (s : QueueState) (id : Nat) (d : PyVal) :
      Step s (updateJobProgress s id d)
  | claim (s : QueueState) (t : Rat) :
      s.phase = .idle → s.queueIds ≠ [] → Step s (claimStep s t)
  | drainFile (s : QueueState) (jid : Nat) (d : PyVal) :
      s.phase = .running jid → Step s (drainFileStep s jid d)
  | drainProgress (s : QueueState) (jid : Nat) (p d h : PyVal) :
      s.phase = .running jid → Step s (drainProgressStep s jid p d h)
  | drainEnd (s : QueueState) (jid : Nat) :
      s.phase = .running jid → Step s (drainEndStep s jid)
  | drainCancel (s : QueueState) (jid : Nat) :
      s.phase = .running jid →
      (findJob s.jobs jid).map Job.status = some .cancelled →
      Step s (drainCancelStep s jid)
  | routineError (s : QueueState) (jid : Nat) (msg : String) (t : Rat) :
      s.phase = .running jid → Step s (routineErrorStep s jid msg t)
  | interrupt (s : QueueState) (jid : Nat) :
      s.phase = .running jid → Step s (interruptStep s jid)
  | finalize (s : QueueState) (jid : Nat) (c : Bool) (t : Rat) :
      s.phase = .finalizing jid c → Step s (finalizeStep s jid c t)
  | outerError (s : QueueState) (msg : String) (t : Rat) :
      (s.phase = .idle ∨ ∃ jid, s.phase = .running jid) →
      Step s (outerErrorStep s msg t)

/-- States reachable from a freshly constructed queue by any
interleaving of producer calls and worker-loop sections. -/
inductive Reachable : QueueState → Prop where
  | init : Reachable initState
  | step {s s' : QueueState} : Reachable s → Step s s' → Reachable s'

/-- The inductive invariant of the engine, established at __init__ and
preserved by every critical section: the jobs dict has unique ids
below the fresh-id counter, the admission queue holds unique known ids
whose jobs are Pending or Cancelled, a Running job is exactly the
current job under the raised processing flag, an idle worker holds no
current job, and the worker phases agree with current_job,
is_processing and the claimed job (which has left the queue and is
Running or Cancelled while draining). -/
structure EngineInv (s : QueueState) : Prop where
  nodupIds : (s.jobs.map Job.id).Nodup
  idBound : ∀ j ∈ s.jobs, j.id < s.nextId
  queueBound : ∀ i ∈ s.queueIds, i < s.nextId
  queueNodup : s.queueIds.Nodup
  queuePC : ∀ i ∈ s.queueIds, ∃ j ∈ s.jobs, j.id = i ∧
      (j.status = JobStatus.pending ∨ j.status = JobStatus.cancelled)
  runningCur : ∀ j ∈ s.jobs, j.status = JobStatus.running →
      s.isProcessing = true ∧ s.currentJob = some j.id
  idleInv : s.phase = .idle → s.currentJob = Option.none ∧ s.isProcessing = false
  runInv : ∀ jid, s.phase = .running jid → s.currentJob = some jid ∧
      s.isProcessing = true ∧ jid ∉ s.queueIds ∧
      ∃ j ∈ s.jobs, j.id = jid ∧
        (j.status = JobStatus.running ∨ j.status = JobStatus.cancelled)
  finCur : ∀ jid c, s.phase = .finalizing jid c → s.currentJob = some jid ∧
      s.isProcessing = true ∧ jid ∉ s.queueIds ∧ ∃ j ∈ s.jobs, j.id = jid

/-- The transition edges of the job state machine claimed by the spec
(section 4.2): Pending to Running or Cancelled, Running to Cancelled,
Completed or Failed — plus staying put, which is not a transition. -/
def statusEdge (a b : JobStatus) : Bool :=
  a == b
    || (a == JobStatus.pending && (b == JobStatus.running || b == JobStatus.cancelled))
    || (a == JobStatus.running
          && (b == JobStatus.cancelled || b == JobStatus.completed || b == JobStatus.failed))

/-- The edges the code actually realises: the claimed edges plus
Cancelled to Failed, which the unguarded status writes of the two
worker-loop error handlers can produce for the job being processed. -/
def statusEdgeExt (a b : JobStatus) : Bool :=
  statusEdge a b || (a == JobStatus.cancelled && b == JobStatus.failed)

/-- Scenario: one job submitted with empty params at time 0. -/
def exS1 : QueueState := (addJob initState [] 0 true).1

/-- The worker claims job 0 at time 0: the job is Running. -/
def exS2 : QueueState := claimStep exS1 0

/-- A producer cancels the running job 0 at time 1 while the worker is
between launching the routine and draining events. -/
def exS3 : QueueState := (cancelJob exS2 0 1).1

/-- The worker-routine launch raises (for example the worker function
was never configured); the except handler of lines 420-428 runs at
time 2 and overwrites the Cancelled status with Failed. -/
def exS4 : QueueState := routineErrorStep exS3 0 "boom" 2

/-- The Pending job stored by the first submission. -/
def exJob1 : Job := mkJobFromDict 0 [] 0

/-- The same job once claimed by the worker loop. -/
def exJob2 : Job := { exJob1 with status := JobStatus.running, startedAt := some 0 }

/-- Two submissions whose time.time() calls returned the same float
(the clock resolution makes this realizable): jobs 0 and 1 both carry
created_at 5, job 1 arriving later in the admission queue. -/
def exT1 : QueueState := (addJob initState [] 5 true).1

/-- The state after the second equal-timestamp submission. -/
def exT2 : QueueState := (addJob exT1 [] 5 true).1

/-- The first and second equal-timestamp jobs of exT2. -/
def exJobT0 : Job := mkJobFromDict 0 [] 5

/-- The second equal-timestamp job of exT2. -/
def exJobT1 : Job := mkJobFromDict 1 [] 5

/-- A Running job whose params carry an image array under input_image
next to an ordinary setting. -/
def exJob8 : Job := { id := 8, params := .dict [(.str "input_image", .ndarray 2), (.str "seed", .num 31)], status := .running, createdAt := 0 }

/-- A job that mixes a serializable setting with a non-serializable
array value in its params. -/
def exJob5 : Job := { id := 9, params := .dict [(.str "seed", .num 1), (.str "bad", .ndarray 3)], status := .failed, createdAt := 0 }

/-- A job whose params is not a mapping at all. -/
def exJob5b : Job := { id := 10, params := .str "oops", status := .pending, createdAt := 0 }

/-- The LoRA scenario job of the spec: selected x, loaded [x, y],
weights [0.7, 0.3]. -/
def exJob6 : Job := { id := 4, params := .dict [(.str "selected_loras", .list [.str "x"]), (.str "lora_loaded_names", .list [.str "x", .str "y"]), (.str "lora_values", .list [.num (mkRat 7 10), .num (mkRat 3 10)])], status := .pending, createdAt := 0 }

theorem findJob_mem {jobs : List Job} {i : Nat} {j : Job}
    (h : findJob jobs i = some j) : j ∈ jobs ∧ j.id = i := by
  induction jobs with
  | nil => cases h
  | cons a l ih =>
      by_cases ha : a.id = i
      · simp [findJob, ha] at h
        subst h
        exact ⟨List.mem_cons_self a l, ha⟩
      · simp [findJob, ha] at h
        exact ⟨List.mem_cons_of_mem a (ih h).1, (ih h).2⟩

theorem findJob_of_mem {jobs : List Job} (hn : (jobs.map Job.id).Nodup)
    {j : Job} (hj : j ∈ jobs) : findJob jobs j.id = some j := by
  induction jobs with
  | nil => cases hj
  | cons a l ih =>
      simp only [List.map_cons, List.nodup_cons, List.mem_map] at hn
      rcases List.mem_cons.mp hj with rfl | hj'
      · simp [findJob]
      · have hne : a.id ≠ j.id := fun h => hn.1 ⟨j, hj', h.symm⟩
        simpa [findJob, hne] using ih hn.2 hj'

theorem eq_of_mem_id {jobs : List Job} (hn : (jobs.map Job.id).Nodup)
    {j j' : Job} (h1 : j ∈ jobs) (h2 : j' ∈ jobs) (hid : j'.id = j.id) : j' = j := by
  have e1 := findJob_of_mem hn h1
  have e2 := findJob_of_mem hn h2
  rw [hid] at e2
  exact Option.some_injective _ (e2.symm.trans e1)

theorem mem_updateJob {jobs : List Job} {i : Nat} {f : Job → Job} {j' : Job}
    (h : j' ∈ updateJob jobs i f) :
    ∃ j ∈ jobs, j' = if j.id = i then f j else j := by
  rcases List.mem_map.mp h with ⟨j, hj, hje⟩
  exact ⟨j, hj, hje.symm⟩

theorem updateJob_mem_of_mem {jobs : List Job} {i : Nat} {f : Job → Job} {j : Job}
    (h : j ∈ jobs) : (if j.id = i then f j else j) ∈ updateJob jobs i f :=
  List.mem_map.mpr ⟨j, h, rfl⟩

theorem updateJob_map_id {jobs : List Job} {i : Nat} {f : Job → Job}
    (hf : ∀ j, (f j).id = j.id) :
    (updateJob jobs i f).map Job.id = jobs.map Job.id := by
  simp only [updateJob, List.map_map]
  refine List.map_congr_left (fun j _ => ?_)
  by_cases h : j.id = i <;> simp [h, hf]

theorem findJob_updateJob {jobs : List Job} {i k : Nat} {f : Job → Job}
    (hf : ∀ j, (f j).id = j.id) :
    findJob (updateJob jobs i f) k
      = (findJob jobs k).map (fun j => if j.id = i then f j else j) := by
  induction jobs with
  | nil => rfl
  | cons a l ih =>
      have h1 : (if a.id = i then f a else a).id = a.id := by
        by_cases hi : a.id = i <;> simp [hi, hf]
      have hcons : updateJob (a :: l) i f
          = (if a.id = i then f a else a) :: updateJob l i f := rfl
      rw [hcons]
      by_cases h : a.id = k
      · subst h
        simp [findJob, h1]
      · simp [findJob, h1, h, ih]

theorem findJob_updateJob_self {jobs : List Job} {i : Nat} {f : Job → Job}
    {j : Job} (h : findJob jobs i = some j) (hf : ∀ x, (f x).id = x.id) :
    findJob (updateJob jobs i f) i = some (f j) := by
  rw [findJob_updateJob hf, h]
  simp [(findJob_mem h).2]

theorem findJob_updateJob_ne {jobs : List Job} {i k : Nat} {f : Job → Job}
    (hne : k ≠ i) (hf : ∀ x, (f x).id = x.id) :
    findJob (updateJob jobs i f) k = findJob jobs k := by
  rw [findJob_updateJob hf]
  cases h : findJob jobs k with
  | none => rfl
  | some j =>
      have := (findJob_mem h).2
      simp [this, hne]

theorem findJob_append_new {jobs : List Job} {j : Job}
    (hb : ∀ j' ∈ jobs, j'.id ≠ j.id) : findJob (jobs ++ [j]) j.id = some j := by
  induction jobs with
  | nil => simp [findJob]
  | cons a l ih =>
      have ha : a.id ≠ j.id := hb a (List.mem_cons_self a l)
      simpa [findJob, ha] using
        ih (fun j' hj' => hb j' (List.mem_cons_of_mem a hj'))

theorem findJob_append_old {jobs : List Job} {j : Job} {k : Nat}
    (hne : j.id ≠ k) : findJob (jobs ++ [j]) k = findJob jobs k := by
  induction jobs with
  | nil => simp [findJob, hne]
  | cons a l ih =>
      by_cases ha : a.id = k <;> simp [findJob, ha, ih]

theorem pyLookup_dictSet_self (kvs : List (PyVal × PyVal)) (k v : PyVal) :
    pyLookup (dictSet kvs k v) k = some v := by
  induction kvs with
  | nil => simp [dictSet, pyLookup]
  | cons a l ih =>
      by_cases ha : a.1 = k <;> simp [dictSet, pyLookup, ha, ih]

theorem pyLookup_dictSet_ne (kvs : List (PyVal × PyVal)) (k v k' : PyVal)
    (hne : k' ≠ k) : pyLookup (dictSet kvs k v) k' = pyLookup kvs k' := by
  have hkk : ¬(k = k') := fun h => hne h.symm
  induction kvs with
  | nil => simp [dictSet, pyLookup, hkk]
  | cons a l ih =>
      by_cases ha : a.1 = k
      · rw [show dictSet (a :: l) k v = (k, v) :: l from by simp [dictSet, ha]]
        have h2 : ¬(a.1 = k') := by rw [ha]; exact hkk
        simp [pyLookup, hkk, h2]
      · rw [show dictSet (a :: l) k v = a :: dictSet l k v from by simp [dictSet, ha]]
        by_cases ha' : a.1 = k' <;> simp [pyLookup, ha', ih]

theorem mem_dictSet {kvs : List (PyVal × PyVal)} {k v : PyVal} {e : PyVal × PyVal}
    (h : e ∈ dictSet kvs k v) : e = (k, v) ∨ e ∈ kvs := by
  induction kvs with
  | nil => simpa [dictSet] using h
  | cons hd l ih =>
      by_cases ha : hd.1 = k
      · rw [show dictSet (hd :: l) k v = (k, v) :: l from by simp [dictSet, ha]] at h
        rcases List.mem_cons.mp h with h' | h'
        · exact Or.inl h'
        · exact Or.inr (List.mem_cons_of_mem hd h')
      · rw [show dictSet (hd :: l) k v = hd :: dictSet l k v from by simp [dictSet, ha]] at h
        rcases List.mem_cons.mp h with h' | h'
        · exact Or.inr (List.mem_cons.mpr (Or.inl h'))
        · rcases ih h' with h'' | h''
          · exact Or.inl h''
          · exact Or.inr (List.mem_cons_of_mem hd h'')

theorem mem_updateJob_of_ne {jobs : List Job} {i : Nat} {f : Job → Job} {j : Job}
    (hj : j ∈ jobs) (hne : j.id ≠ i) : j ∈ updateJob jobs i f := by
  have h2 := @updateJob_mem_of_mem jobs i f j hj
  simpa [hne] using h2

theorem mem_updateJob_self {jobs : List Job} {i : Nat} {f : Job → Job} {j : Job}
    (hj : j ∈ jobs) (hi : j.id = i) : f j ∈ updateJob jobs i f := by
  have h2 := @updateJob_mem_of_mem jobs i f j hj
  simpa [hi] using h2

theorem inv_init : EngineInv initState := by
  constructor <;> simp [initState]

theorem inv_keepStatus {s : QueueState} (h : EngineInv s) (i : Nat) (f : Job → Job)
    (hid : ∀ j, (f j).id = j.id) (hst : ∀ j, (f j).status = j.status) :
    EngineInv { s with jobs := updateJob s.jobs i f } := by
  obtain ⟨h1, h2, h3, h4, h5, h6, h7, h8, h9⟩ := h
  refine ⟨?_, ?_, h3, h4, ?_, ?_, h7, ?_, ?_⟩
  · simpa [updateJob_map_id hid] using h1
  · intro j' hj'
    rcases mem_updateJob hj' with ⟨j, hj, hje⟩
    by_cases hc : j.id = i
    · rw [hje, if_pos hc, hid]
      exact h2 j hj
    · rw [hje, if_neg hc]
      exact h2 j hj
  · intro q hq
    rcases h5 q hq with ⟨j, hj, hjid, hjs⟩
    by_cases hc : j.id = i
    · exact ⟨f j, mem_updateJob_self hj hc, by rw [hid, hjid], by rw [hst]; exact hjs⟩
    · exact ⟨j, mem_updateJob_of_ne hj hc, hjid, hjs⟩
  · intro j' hj' hrun
    rcases mem_updateJob hj' with ⟨j, hj, hje⟩
    by_cases hc : j.id = i
    · rw [hje, if_pos hc] at hrun ⊢
      rw [hst] at hrun
      rw [hid]
      exact h6 j hj hrun
    · rw [hje, if_neg hc] at hrun ⊢
      exact h6 j hj hrun
  · intro jid hp
    rcases h8 jid hp with ⟨hcj, hip, hnq, j, hj, hjid, hjs⟩
    refine ⟨hcj, hip, hnq, ?_⟩
    by_cases hc : j.id = i
    · exact ⟨f j, mem_updateJob_self hj hc, by rw [hid, hjid], by rw [hst]; exact hjs⟩
    · exact ⟨j, mem_updateJob_of_ne hj hc, hjid, hjs⟩
  · intro jid c hp
    rcases h9 jid c hp with ⟨hcj, hip, hnq, j, hj, hjid⟩
    refine ⟨hcj, hip, hnq, ?_⟩
    by_cases hc : j.id = i
    · exact ⟨f j, mem_updateJob_self hj hc, by rw [hid, hjid]⟩
    · exact ⟨j, mem_updateJob_of_ne hj hc, hjid⟩

theorem inv_addJob {s : QueueState} (h : EngineInv s) (kvs : List (PyVal × PyVal))
    (t : Rat) (pf : Bool) : EngineInv (addJob s kvs t pf).1 := by
  obtain ⟨h1, h2, h3, h4, h5, h6, h7, h8, h9⟩ := h
  have hidnew : (mkJobFromDict s.nextId kvs t).id = s.nextId := rfl
  have hstnew : (mkJobFromDict s.nextId kvs t).status = JobStatus.pending := rfl
  refine ⟨?_, ?_, ?_, ?_, ?_, ?_, h7, ?_, ?_⟩
  · simp only [addJob, List.map_append, List.map_cons, List.map_nil, hidnew]
    rw [List.nodup_append]
    refine ⟨h1, List.nodup_singleton _, ?_⟩
    intro a ha hb
    rcases List.mem_singleton.mp hb with rfl
    rcases List.mem_map.mp ha with ⟨j, hj, hje⟩
    exact absurd hje (Nat.ne_of_lt (h2 j hj))
  · intro j hj
    rcases List.mem_append.mp hj with hj' | hj'
    · exact Nat.lt_succ_of_lt (h2 j hj')
    · rcases List.mem_singleton.mp hj' with rfl
      rw [hidnew]
      exact Nat.lt_succ_self _
  · intro i hi
    rcases List.mem_append.mp hi with hi' | hi'
    · exact Nat.lt_succ_of_lt (h3 i hi')
    · rcases List.mem_singleton.mp hi' with rfl
      exact Nat.lt_succ_self _
  · rw [show (addJob s kvs t pf).1.queueIds = s.queueIds ++ [s.nextId] from rfl]
    rw [List.nodup_append]
    refine ⟨h4, List.nodup_singleton _, ?_⟩
    intro a ha hb
    rcases List.mem_singleton.mp hb with rfl
    exact absurd (h3 _ ha) (Nat.lt_irrefl _)
  · intro i hi
    rcases List.mem_append.mp hi with hi' | hi'
    · rcases h5 i hi' with ⟨j, hj, hjid, hjs⟩
      exact ⟨j, List.mem_append_left _ hj, hjid, hjs⟩
    · rcases List.mem_singleton.mp hi' with rfl
      exact ⟨mkJobFromDict s.nextId kvs t,
        List.mem_append_right _ (List.mem_singleton_self _), hidnew, Or.inl hstnew⟩
  · intro j hj hrun
    rcases List.mem_append.mp hj with hj' | hj'
    · exact h6 j hj' hrun
    · rcases List.mem_singleton.mp hj' with rfl
      rw [hstnew] at hrun
      cases hrun
  · intro jid hp
    rcases h8 jid hp with ⟨hcj, hip, hnq, j, hj, hjid, hjs⟩
    refine ⟨hcj, hip, ?_, j, List.mem_append_left _ hj, hjid, hjs⟩
    intro hmem
    rcases List.mem_append.mp hmem with hm | hm
    · exact hnq hm
    · rcases List.mem_singleton.mp hm with rfl
      exact absurd hjid (Nat.ne_of_lt (h2 j hj))
  · intro jid c hp
    rcases h9 jid c hp with ⟨hcj, hip, hnq, j, hj, hjid⟩
    refine ⟨hcj, hip, ?_, j, List.mem_append_left _ hj, hjid⟩
    intro hmem
    rcases List.mem_append.mp hmem with hm | hm
    · exact hnq hm
    · rcases List.mem_singleton.mp hm with rfl
      exact absurd hjid (Nat.ne_of_lt (h2 j hj))

theorem inv_toCancelled {s : QueueState} (h : EngineInv s) (i : Nat) (f : Job → Job)
    (hid : ∀ j, (f j).id = j.id) (hst : ∀ j, (f j).status = JobStatus.cancelled) :
    EngineInv { s with jobs := updateJob s.jobs i f } := by
  obtain ⟨h1, h2, h3, h4, h5, h6, h7, h8, h9⟩ := h
  refine ⟨?_, ?_, h3, h4, ?_, ?_, h7, ?_, ?_⟩
  · simpa [updateJob_map_id hid] using h1
  · intro j' hj'
    rcases mem_updateJob hj' with ⟨j, hj, hje⟩
    by_cases hc : j.id = i
    · rw [hje, if_pos hc, hid]
      exact h2 j hj
    · rw [hje, if_neg hc]
      exact h2 j hj
  · intro q hq
    rcases h5 q hq with ⟨j, hj, hjid, hjs⟩
    by_cases hc : j.id = i
    · exact ⟨f j, mem_updateJob_self hj hc, by rw [hid, hjid], Or.inr (hst j)⟩
    · exact ⟨j, mem_updateJob_of_ne hj hc, hjid, hjs⟩
  · intro j' hj' hrun
    rcases mem_updateJob hj' with ⟨j, hj, hje⟩
    by_cases hc : j.id = i
    · rw [hje, if_pos hc] at hrun
      rw [hst] at hrun
      cases hrun
    · rw [hje, if_neg hc] at hrun ⊢
      exact h6 j hj hrun
  · intro jid hp
    rcases h8 jid hp with ⟨hcj, hip, hnq, j, hj, hjid, hjs⟩
    refine ⟨hcj, hip, hnq, ?_⟩
    by_cases hc : j.id = i
    · exact ⟨f j, mem_updateJob_self hj hc, by rw [hid, hjid], Or.inr (hst j)⟩
    · exact ⟨j, mem_updateJob_of_ne hj hc, hjid, hjs⟩
  · intro jid c hp
    rcases h9 jid c hp with ⟨hcj, hip, hnq, j, hj, hjid⟩
    refine ⟨hcj, hip, hnq, ?_⟩
    by_cases hc : j.id = i
    · exact ⟨f j, mem_updateJob_self hj hc, by rw [hid, hjid]⟩
    · exact ⟨j, mem_updateJob_of_ne hj hc, hjid⟩

theorem inv_cancelJob {s : QueueState} (h : EngineInv s) (id : Nat) (t : Rat) :
    EngineInv (cancelJob s id t).1 := by
  cases hf : findJob s.jobs id with
  | none =>
      have he : (cancelJob s id t).1 = s := by simp [cancelJob, hf]
      rw [he]; exact h
  | some j =>
      by_cases hp : j.status = JobStatus.pending
      · have he : (cancelJob s id t).1 = { s with jobs := updateJob s.jobs id (fun j => { j with status := JobStatus.cancelled, completedAt := some t }) } := by
          simp [cancelJob, hf, hp]
        rw [he]
        exact inv_toCancelled h id _ (fun _ => rfl) (fun _ => rfl)
      · by_cases hr : j.status = JobStatus.running
        · have he : (cancelJob s id t).1 = { s with jobs := updateJob s.jobs id (fun j => { j with streamInput := j.streamInput ++ ["end"], status := JobStatus.cancelled, completedAt := some t }) } := by
            simp [cancelJob, hf, hp, hr]
          rw [he]
          exact inv_toCancelled h id _ (fun _ => rfl) (fun _ => rfl)
        · have he : (cancelJob s id t).1 = s := by simp [cancelJob, hf, hp, hr]
          rw [he]; exact h

theorem inv_progress {s : QueueState} (h : EngineInv s) (id : Nat) (d : PyVal) :
    EngineInv (updateJobProgress s id d) := by
  cases hf : findJob s.jobs id with
  | none =>
      have he : updateJobProgress s id d = s := by simp [updateJobProgress, hf]
      rw [he]; exact h
  | some j =>
      have he : updateJobProgress s id d = { s with jobs := updateJob s.jobs id (fun j => { j with progressData := d }) } := by
        simp [updateJobProgress, hf]
      rw [he]
      exact inv_keepStatus h id _ (fun _ => rfl) (fun _ => rfl)

theorem inv_phaseFin {s : QueueState} (h : EngineInv s) {jid : Nat}
    (hp : s.phase = .running jid) (c : Bool) :
    EngineInv { s with phase := .finalizing jid c } := by
  obtain ⟨h1, h2, h3, h4, h5, h6, h7, h8, h9⟩ := h
  rcases h8 jid hp with ⟨hcj, hip, hnq, j, hj, hjid, hjs⟩
  refine ⟨h1, h2, h3, h4, h5, ?_, ?_, ?_, ?_⟩
  · intro j' hj' hrun
    exact h6 j' hj' hrun
  · intro hpi
    simp at hpi
  · intro jid' hpr
    simp at hpr
  · intro jid' c' hpf
    have hpf' : WPhase.finalizing jid c = WPhase.finalizing jid' c' := hpf
    injection hpf' with e1 e2
    subst e1
    exact ⟨hcj, hip, hnq, j, hj, hjid⟩

theorem inv_routineError {s : QueueState} (h : EngineInv s) {jid : Nat}
    (hp : s.phase = .running jid) (msg : String) (t : Rat) :
    EngineInv (routineErrorStep s jid msg t) := by
  obtain ⟨h1, h2, h3, h4, h5, h6, h7, h8, h9⟩ := h
  rcases h8 jid hp with ⟨hcj, hip, hnq, j0, hj0, hjid0, hjs0⟩
  refine ⟨?_, ?_, h3, h4, ?_, ?_, ?_, ?_, ?_⟩
  · have hume : (updateJob s.jobs jid (fun j => { j with status := JobStatus.failed, error := some msg, completedAt := some t })).map Job.id = s.jobs.map Job.id := updateJob_map_id (fun _ => rfl)
    simpa [routineErrorStep, hume] using h1
  · intro j' hj'
    rcases mem_updateJob hj' with ⟨j, hj, hje⟩
    by_cases hc : j.id = jid
    · rw [hje, if_pos hc]
      exact h2 j hj
    · rw [hje, if_neg hc]
      exact h2 j hj
  · intro q hq
    rcases h5 q hq with ⟨j, hj, hjid, hjs⟩
    have hcq : j.id ≠ jid := by
      rw [hjid]
      intro he
      exact hnq (he ▸ hq)
    exact ⟨j, mem_updateJob_of_ne hj hcq, hjid, hjs⟩
  · intro j' hj' hrun
    rcases mem_updateJob hj' with ⟨j, hj, hje⟩
    by_cases hc : j.id = jid
    · rw [hje, if_pos hc] at hrun
      cases hrun
    · rw [hje, if_neg hc] at hrun ⊢
      exact h6 j hj hrun
  · intro hpi
    simp [routineErrorStep] at hpi
  · intro jid' hpr
    simp [routineErrorStep] at hpr
  · intro jid' c' hpf
    have hpf' : WPhase.finalizing jid true = WPhase.finalizing jid' c' := hpf
    injection hpf' with e1 e2
    subst e1
    refine ⟨hcj, hip, hnq, ?_⟩
    exact ⟨_, mem_updateJob_self hj0 hjid0, hjid0⟩

theorem inv_finalize {s : QueueState} (h : EngineInv s) {jid : Nat} {c : Bool}
    (hp : s.phase = .finalizing jid c) (t : Rat) : EngineInv (finalizeStep s jid c t) := by
  obtain ⟨h1, h2, h3, h4, h5, h6, h7, h8, h9⟩ := h
  rcases h9 jid c hp with ⟨hcj, hip, hnq, j0, hj0, hjid0⟩
  have hid : ∀ j : Job, (if j.status = JobStatus.running then if c then { j with status := JobStatus.completed, completedAt := some t } else { j with status := JobStatus.failed, error := some "Job processing was interrupted", completedAt := some t } else j).id = j.id := by
    intro j
    by_cases hr : j.status = JobStatus.running <;> cases c <;> simp [hr]
  refine ⟨?_, ?_, h3, h4, ?_, ?_, ?_, ?_, ?_⟩
  · simpa [finalizeStep, updateJob_map_id hid] using h1
  · intro j' hj'
    rcases mem_updateJob hj' with ⟨j, hj, hje⟩
    by_cases hc : j.id = jid
    · rw [hje, if_pos hc, hid]
      exact h2 j hj
    · rw [hje, if_neg hc]
      exact h2 j hj
  · intro q hq
    rcases h5 q hq with ⟨j, hj, hjid, hjs⟩
    have hcq : j.id ≠ jid := by
      rw [hjid]
      intro he
      exact hnq (he ▸ hq)
    exact ⟨j, mem_updateJob_of_ne hj hcq, hjid, hjs⟩
  · intro j' hj' hrun
    exfalso
    rcases mem_updateJob hj' with ⟨j, hj, hje⟩
    by_cases hc : j.id = jid
    · rw [hje, if_pos hc] at hrun
      by_cases hr : j.status = JobStatus.running <;> cases c <;> simp [hr] at hrun
    · rw [hje, if_neg hc] at hrun
      have := (h6 j hj hrun).2
      rw [hcj] at this
      exact hc (Option.some_injective _ this.symm)
  · intro _
    exact ⟨rfl, rfl⟩
  · intro jid' hpr
    simp [finalizeStep] at hpr
  · intro jid' c' hpf
    simp [finalizeStep] at hpf

theorem inv_dropHead {s : QueueState} (h : EngineInv s) {i : Nat} {rest : List Nat}
    (hq : s.queueIds = i :: rest) (hp : s.phase = .idle) :
    EngineInv { s with queueIds := rest } := by
  obtain ⟨h1, h2, h3, h4, h5, h6, h7, h8, h9⟩ := h
  have hsub : ∀ x, x ∈ rest → x ∈ s.queueIds := by
    intro x hx
    rw [hq]
    exact List.mem_cons_of_mem _ hx
  refine ⟨h1, h2, ?_, ?_, ?_, ?_, ?_, ?_, ?_⟩
  · intro x hx
    exact h3 x (hsub x hx)
  · exact List.Nodup.of_cons (hq ▸ h4)
  · intro x hx
    exact h5 x (hsub x hx)
  · intro j hj hrun
    exact h6 j hj hrun
  · intro _
    exact h7 hp
  · intro jid hpr
    rw [hp] at hpr
    cases hpr
  · intro jid c hpf
    rw [hp] at hpf
    cases hpf

theorem inv_claim {s : QueueState} (h : EngineInv s) (hp : s.phase = .idle) (t : Rat) :
    EngineInv (claimStep s t) := by
  have hidle := h.idleInv hp
  cases hq : s.queueIds with
  | nil =>
      have he : claimStep s t = s := by simp [claimStep, hq]
      rw [he]; exact h
  | cons i rest =>
      cases hf : findJob s.jobs i with
      | none =>
          have he : claimStep s t = { s with queueIds := rest } := by
            simp [claimStep, hq, hf]
          rw [he]
          exact inv_dropHead h hq hp
      | some j =>
          by_cases hcanc : j.status = JobStatus.cancelled
          · have he : claimStep s t = { s with queueIds := rest } := by
              simp [claimStep, hq, hf, hcanc]
            rw [he]
            exact inv_dropHead h hq hp
          · have hipf : ¬(s.isProcessing = true) := by
              rw [hidle.2]
              simp
            have he : claimStep s t = { s with queueIds := rest, jobs := updateJob s.jobs i (fun j => { j with status := JobStatus.running, startedAt := some t }), currentJob := some i, isProcessing := true, phase := .running i } := by
              simp [claimStep, hq, hf, hcanc, hidle.2]
            rw [he]
            obtain ⟨h1, h2, h3, h4, h5, h6, h7, h8, h9⟩ := h
            have hnodup' : i ∉ rest := by
              have := hq ▸ h4
              exact (List.nodup_cons.mp this).1
            have hjm := findJob_mem hf
            refine ⟨?_, ?_, ?_, ?_, ?_, ?_, ?_, ?_, ?_⟩
            · simpa [updateJob_map_id (fun (j : Job) => (rfl : ({ j with status := JobStatus.running, startedAt := some t } : Job).id = j.id))] using h1
            · intro j' hj'
              rcases mem_updateJob hj' with ⟨j2, hj2, hje⟩
              by_cases hc : j2.id = i
              · rw [hje, if_pos hc]
                exact h2 j2 hj2
              · rw [hje, if_neg hc]
                exact h2 j2 hj2
            · intro x hx
              exact h3 x (by rw [hq]; exact List.mem_cons_of_mem _ hx)
            · exact List.Nodup.of_cons (hq ▸ h4)
            · intro x hx
              have hxne : x ≠ i := fun he' => hnodup' (he' ▸ hx)
              rcases h5 x (by rw [hq]; exact List.mem_cons_of_mem _ hx) with ⟨j2, hj2, hjid2, hjs2⟩
              have : j2.id ≠ i := by rw [hjid2]; exact hxne
              exact ⟨j2, mem_updateJob_of_ne hj2 this, hjid2, hjs2⟩
            · intro j' hj' hrun
              rcases mem_updateJob hj' with ⟨j2, hj2, hje⟩
              by_cases hc : j2.id = i
              · constructor
                · rfl
                · rw [hje, if_pos hc]
                  rw [show ({ j2 with status := JobStatus.running, startedAt := some t } : Job).id = j2.id from rfl, hc]
              · rw [hje, if_neg hc] at hrun
                exfalso
                have := (h6 j2 hj2 hrun).1
                rw [hidle.2] at this
                cases this
            · intro hpi
              simp at hpi
            · intro jid' hpr
              have hpr' : WPhase.running i = WPhase.running jid' := hpr
              injection hpr' with e1
              subst e1
              refine ⟨rfl, rfl, hnodup', ?_⟩
              refine ⟨{ j with status := JobStatus.running, startedAt := some t }, ?_, ?_, Or.inl rfl⟩
              · exact mem_updateJob_self hjm.1 hjm.2
              · exact hjm.2
            · intro jid' c' hpf
              simp at hpf

theorem inv_outer {s : QueueState} (h : EngineInv s)
    (hp : s.phase = .idle ∨ ∃ jid, s.phase = .running jid) (msg : String) (t : Rat) :
    EngineInv (outerErrorStep s msg t) := by
  obtain ⟨h1, h2, h3, h4, h5, h6, h7, h8, h9⟩ := h
  cases hcur : s.currentJob with
  | none =>
      have he : outerErrorStep s msg t = { s with isProcessing := false, phase := .idle } := by
        simp [outerErrorStep, hcur]
      rw [he]
      refine ⟨h1, h2, h3, h4, h5, ?_, ?_, ?_, ?_⟩
      · intro j hj hrun
        exfalso
        have := (h6 j hj hrun).2
        rw [hcur] at this
        cases this
      · intro _
        exact ⟨hcur, rfl⟩
      · intro jid hpr
        simp at hpr
      · intro jid c hpf
        simp at hpf
  | some cid =>
      rcases hp with hpi | ⟨jid, hpr⟩
      · exfalso
        have := (h7 hpi).1
        rw [hcur] at this
        cases this
      · rcases h8 jid hpr with ⟨hcj, hip, hnq, j0, hj0, hjid0, hjs0⟩
        have hcid : cid = jid := by
          rw [hcur] at hcj
          exact Option.some_injective _ hcj
        subst hcid
        have he : outerErrorStep s msg t = { s with jobs := updateJob s.jobs cid (fun j => { j with status := JobStatus.failed, error := some ("Worker loop error: " ++ msg), completedAt := some t }), currentJob := Option.none, isProcessing := false, phase := .idle } := by
          simp [outerErrorStep, hcur]
        rw [he]
        refine ⟨?_, ?_, h3, h4, ?_, ?_, ?_, ?_, ?_⟩
        · have hume : (updateJob s.jobs cid (fun j => { j with status := JobStatus.failed, error := some ("Worker loop error: " ++ msg), completedAt := some t })).map Job.id = s.jobs.map Job.id := updateJob_map_id (fun _ => rfl)
          simpa [hume] using h1
        · intro j' hj'
          rcases mem_updateJob hj' with ⟨j, hj, hje⟩
          by_cases hc : j.id = cid
          · rw [hje, if_pos hc]
            exact h2 j hj
          · rw [hje, if_neg hc]
            exact h2 j hj
        · intro x hx
          rcases h5 x hx with ⟨j, hj, hjid, hjs⟩
          have : j.id ≠ cid := by
            rw [hjid]
            intro he'
            exact hnq (he' ▸ hx)
          exact ⟨j, mem_updateJob_of_ne hj this, hjid, hjs⟩
        · intro j' hj' hrun
          exfalso
          rcases mem_updateJob hj' with ⟨j, hj, hje⟩
          by_cases hc : j.id = cid
          · rw [hje, if_pos hc] at hrun
            cases hrun
          · rw [hje, if_neg hc] at hrun
            have := (h6 j hj hrun).2
            rw [hcur] at this
            exact hc (Option.some_injective _ this.symm)
        · intro _
          exact ⟨rfl, rfl⟩
        · intro jid' hpr'
          simp at hpr'
        · intro jid' c' hpf
          simp at hpf

theorem inv_step {s s' : QueueState} (h : EngineInv s) (hs : Step s s') : EngineInv s' := by
  cases hs with
  | submit kvs t pf => exact inv_addJob h kvs t pf
  | cancel id t => exact inv_cancelJob h id t
  | progress id d => exact inv_progress h id d
  | claim t hp hq => exact inv_claim h hp t
  | drainFile jid d hp => exact inv_keepStatus h jid _ (fun _ => rfl) (fun _ => rfl)
  | drainProgress jid p d hh hp => exact inv_keepStatus h jid _ (fun _ => rfl) (fun _ => rfl)
  | drainEnd jid hp => exact inv_phaseFin h hp true
  | drainCancel jid hp hc => exact inv_phaseFin h hp true
  | routineError jid msg t hp => exact inv_routineError h hp msg t
  | interrupt jid hp => exact inv_phaseFin h hp false
  | finalize jid c t hp => exact inv_finalize h hp t
  | outerError msg t hp => exact inv_outer h hp msg t

theorem reachable_inv {s : QueueState} (h : Reachable s) : EngineInv s := by
  induction h with
  | init => exact inv_init
  | step hr hs ih => exact inv_step ih hs

theorem statusEdgeExt_refl (a : JobStatus) : statusEdgeExt a a = true := by
  cases a <;> rfl

theorem status_of_update {jobs : List Job} (hn : (jobs.map Job.id).Nodup)
    {i : Nat} {f : Job → Job} {j j' : Job} (hj : j ∈ jobs)
    (hj' : j' ∈ updateJob jobs i f) (he : j'.id = j.id)
    (hid : ∀ x, (f x).id = x.id) :
    j' = j ∨ (j.id = i ∧ j' = f j) := by
  rcases mem_updateJob hj' with ⟨j0, hj0, hje⟩
  by_cases hc : j0.id = i
  · rw [hje, if_pos hc] at he ⊢
    rw [hid] at he
    have h0 : j0 = j := eq_of_mem_id hn hj hj0 he
    subst h0
    exact Or.inr ⟨hc, rfl⟩
  · rw [hje, if_neg hc] at he ⊢
    exact Or.inl (eq_of_mem_id hn hj hj0 he)

theorem status_of_append {jobs : List Job} (hn : (jobs.map Job.id).Nodup)
    {nj : Job} (hb : ∀ x ∈ jobs, x.id ≠ nj.id)
    {j j' : Job} (hj : j ∈ jobs) (hj' : j' ∈ jobs ++ [nj]) (he : j'.id = j.id) : j' = j := by
  rcases List.mem_append.mp hj' with hm | hm
  · exact eq_of_mem_id hn hj hm he
  · rcases List.mem_singleton.mp hm with rfl
    exact absurd he.symm (hb j hj)

/-- Per-step status evolution: from an invariant state, any single
critical section moves the status of every stored job along
statusEdgeExt only. -/
theorem step_statusEdgeExt {s s' : QueueState} (h : EngineInv s) (hs : Step s s')
    {j j' : Job} (hj : j ∈ s.jobs) (hj' : j' ∈ s'.jobs) (hid : j'.id = j.id) :
    statusEdgeExt j.status j'.status = true := by
  obtain ⟨h1, h2, h3, h4, h5, h6, h7, h8, h9⟩ := h
  cases hs with
  | submit kvs t pf =>
      have hb : ∀ x ∈ s.jobs, x.id ≠ (mkJobFromDict s.nextId kvs t).id := fun x hx =>
        Nat.ne_of_lt (h2 x hx)
      rw [status_of_append h1 hb hj hj' hid]
      exact statusEdgeExt_refl _
  | cancel id t =>
      cases hf : findJob s.jobs id with
      | none =>
          have he : (cancelJob s id t).1 = s := by simp [cancelJob, hf]
          rw [he] at hj'
          rw [eq_of_mem_id h1 hj hj' hid]
          exact statusEdgeExt_refl _
      | some jf =>
          have hjf := findJob_mem hf
          by_cases hpn : jf.status = JobStatus.pending
          · have he : (cancelJob s id t).1 = { s with jobs := updateJob s.jobs id (fun x => { x with status := JobStatus.cancelled, completedAt := some t }) } := by
              simp [cancelJob, hf, hpn]
            rw [he] at hj'
            rcases status_of_update h1 hj hj' hid (fun _ => rfl) with he2 | ⟨hcid, he2⟩
            · rw [he2]; exact statusEdgeExt_refl _
            · have hjjf : j = jf := eq_of_mem_id h1 hjf.1 hj (hcid.trans hjf.2.symm)
              rw [he2, hjjf, hpn]
              rfl
          · by_cases hrn : jf.status = JobStatus.running
            · have he : (cancelJob s id t).1 = { s with jobs := updateJob s.jobs id (fun x => { x with streamInput := x.streamInput ++ ["end"], status := JobStatus.cancelled, completedAt := some t }) } := by
                simp [cancelJob, hf, hpn, hrn]
              rw [he] at hj'
              rcases status_of_update h1 hj hj' hid (fun _ => rfl) with he2 | ⟨hcid, he2⟩
              · rw [he2]; exact statusEdgeExt_refl _
              · have hjjf : j = jf := eq_of_mem_id h1 hjf.1 hj (hcid.trans hjf.2.symm)
                rw [he2, hjjf, hrn]
                rfl
            · have he : (cancelJob s id t).1 = s := by simp [cancelJob, hf, hpn, hrn]
              rw [he] at hj'
              rw [eq_of_mem_id h1 hj hj' hid]
              exact statusEdgeExt_refl _
  | progress id d =>
      cases hf : findJob s.jobs id with
      | none =>
          have he : updateJobProgress s id d = s := by simp [updateJobProgress, hf]
          rw [he] at hj'
          rw [eq_of_mem_id h1 hj hj' hid]
          exact statusEdgeExt_refl _
      | some jf =>
          have he : updateJobProgress s id d = { s with jobs := updateJob s.jobs id (fun x => { x with progressData := d }) } := by
            simp [updateJobProgress, hf]
          rw [he] at hj'
          rcases status_of_update h1 hj hj' hid (fun _ => rfl) with he2 | ⟨hcid, he2⟩
          · rw [he2]; exact statusEdgeExt_refl _
          · rw [he2]
            exact statusEdgeExt_refl j.status
  | claim t hp hq =>
      cases hqe : s.queueIds with
      | nil => exact absurd hqe hq
      | cons i rest =>
          cases hf : findJob s.jobs i with
          | none =>
              have he : claimStep s t = { s with queueIds := rest } := by
                simp [claimStep, hqe, hf]
              rw [he] at hj'
              rw [eq_of_mem_id h1 hj hj' hid]
              exact statusEdgeExt_refl _
          | some jf =>
              have hjf := findJob_mem hf
              by_cases hcanc : jf.status = JobStatus.cancelled
              · have he : claimStep s t = { s with queueIds := rest } := by
                  simp [claimStep, hqe, hf, hcanc]
                rw [he] at hj'
                rw [eq_of_mem_id h1 hj hj' hid]
                exact statusEdgeExt_refl _
              · have hipf := (h7 hp).2
                have he : claimStep s t = { s with queueIds := rest, jobs := updateJob s.jobs i (fun x => { x with status := JobStatus.running, startedAt := some t }), currentJob := some i, isProcessing := true, phase := .running i } := by
                  simp [claimStep, hqe, hf, hcanc, hipf]
                rw [he] at hj'
                rcases status_of_update h1 hj hj' hid (fun _ => rfl) with he2 | ⟨hcid, he2⟩
                · rw [he2]; exact statusEdgeExt_refl _
                · have hjjf : j = jf := eq_of_mem_id h1 hjf.1 hj (hcid.trans hjf.2.symm)
                  rcases h5 i (by rw [hqe]; exact List.mem_cons_self _ _) with ⟨jq, hjq, hjqid, hjqs⟩
                  have hjqjf : jq = jf := eq_of_mem_id h1 hjf.1 hjq (hjqid.trans hjf.2.symm)
                  have hpn : jf.status = JobStatus.pending := by
                    rcases hjqs with hx | hx
                    · rw [hjqjf] at hx; exact hx
                    · rw [hjqjf] at hx; exact absurd hx hcanc
                  rw [he2, hjjf, hpn]
                  rfl
  | drainFile jid d hp =>
      rcases status_of_update h1 hj hj' hid (fun _ => rfl) with he2 | ⟨hcid, he2⟩
      · rw [he2]; exact statusEdgeExt_refl _
      · rw [he2]
        exact statusEdgeExt_refl j.status
  | drainProgress jid p d hh hp =>
      rcases status_of_update h1 hj hj' hid (fun _ => rfl) with he2 | ⟨hcid, he2⟩
      · rw [he2]; exact statusEdgeExt_refl _
      · rw [he2]
        exact statusEdgeExt_refl j.status
  | drainEnd jid hp =>
      rw [eq_of_mem_id h1 hj hj' hid]
      exact statusEdgeExt_refl _
  | drainCancel jid hp hc =>
      rw [eq_of_mem_id h1 hj hj' hid]
      exact statusEdgeExt_refl _
  | routineError jid msg t hp =>
      rcases status_of_update h1 hj hj' hid (fun _ => rfl) with he2 | ⟨hcid, he2⟩
      · rw [he2]; exact statusEdgeExt_refl _
      · rcases h8 jid hp with ⟨hcj, hip, hnq, j0, hj0, hjid0, hjs0⟩
        have hjj0 : j = j0 := eq_of_mem_id h1 hj0 hj (hcid.trans hjid0.symm)
        rcases hjs0 with hx | hx
        · rw [he2, hjj0, hx]
          rfl
        · rw [he2, hjj0, hx]
          rfl
  | interrupt jid hp =>
      rw [eq_of_mem_id h1 hj hj' hid]
      exact statusEdgeExt_refl _
  | finalize jid c t hp =>
      have hidf : ∀ x : Job, (if x.status = JobStatus.running then if c then { x with status := JobStatus.completed, completedAt := some t } else { x with status := JobStatus.failed, error := some "Job processing was interrupted", completedAt := some t } else x).id = x.id := by
        intro x
        by_cases hr : x.status = JobStatus.running <;> cases c <;> simp [hr]
      rcases status_of_update h1 hj hj' hid hidf with he2 | ⟨hcid, he2⟩
      · rw [he2]; exact statusEdgeExt_refl _
      · rw [he2]
        by_cases hr : j.status = JobStatus.running
        · cases c <;> simp [hr] <;> rfl
        · simp [hr]
          exact statusEdgeExt_refl _
  | outerError msg t hp =>
      cases hcur : s.currentJob with
      | none =>
          have he : outerErrorStep s msg t = { s with isProcessing := false, phase := .idle } := by
            simp [outerErrorStep, hcur]
          rw [he] at hj'
          rw [eq_of_mem_id h1 hj hj' hid]
          exact statusEdgeExt_refl _
      | some cid =>
          have he : outerErrorStep s msg t = { s with jobs := updateJob s.jobs cid (fun x => { x with status := JobStatus.failed, error := some ("Worker loop error: " ++ msg), completedAt := some t }), currentJob := Option.none, isProcessing := false, phase := .idle } := by
            simp [outerErrorStep, hcur]
          rw [he] at hj'
          rcases status_of_update h1 hj hj' hid (fun _ => rfl) with he2 | ⟨hcid, he2⟩
          · rw [he2]; exact statusEdgeExt_refl _
          · rcases hp with hpi | ⟨jid, hpr⟩
            · exfalso
              have := (h7 hpi).1
              rw [hcur] at this
              cases this
            · rcases h8 jid hpr with ⟨hcj, hip, hnq, j0, hj0, hjid0, hjs0⟩
              have hcidj : cid = jid := by
                rw [hcur] at hcj
                exact Option.some_injective _ hcj
              have hjj0 : j = j0 := eq_of_mem_id h1 hj0 hj (by rw [hcid, hcidj, hjid0])
              rcases hjs0 with hx | hx
              · rw [he2, hjj0, hx]
                rfl
              · rw [he2, hjj0, hx]
                rfl

theorem exS1_reachable : Reachable exS1 :=
  Reachable.step Reachable.init (Step.submit initState [] 0 true)

theorem exS2_reachable : Reachable exS2 :=
  Reachable.step exS1_reachable (Step.claim exS1 0 rfl (by decide))

theorem exS3_reachable : Reachable exS3 :=
  Reachable.step exS2_reachable (Step.cancel exS2 0 1)

theorem exS3_step_exS4 : Step exS3 exS4 :=
  Step.routineError exS3 0 "boom" 2 rfl

/-- Claim C1 as stated is refuted by this run: submit, claim, cancel
the running job, then let the worker-routine launch raise.  In the
reachable state exS3 job 0 is already Cancelled, and the routine-level
except handler (an operation of the worker loop) moves it to Failed —
a transition out of a terminal state, outside the section-4.2 edge
set. -/
theorem c1_counterexample :
    Reachable exS3 ∧ Step exS3 exS4
      ∧ (findJob exS3.jobs 0).map Job.status = some JobStatus.cancelled
      ∧ (findJob exS4.jobs 0).map Job.status = some JobStatus.failed
      ∧ statusEdge JobStatus.cancelled JobStatus.failed = false :=
  ⟨exS3_reachable, exS3_step_exS4, by decide, by decide, by decide⟩

/-- Claim C1 (amended): along every step between reachable states,
each stored job moves only along the section-4.2 edges
Pending-Running, Pending-Cancelled, Running-Cancelled,
Running-Completed, Running-Failed (or stays put), except that the
worker-loop error handlers (the routine-level except of lines 420-428
and the outer except of lines 448-461) may additionally move the
currently-processed job from Cancelled to Failed; Completed and Failed
are never left. -/
theorem c1_status_edges (s s' : QueueState) (hr : Reachable s) (hs : Step s s')
    (j j' : Job) (hj : j ∈ s.jobs) (hj' : j' ∈ s'.jobs) (hid : j'.id = j.id) :
    statusEdgeExt j.status j'.status = true :=
  step_statusEdgeExt (reachable_inv hr) hs hj hj' hid

/-- Witness for c1_status_edges at a concrete step: the claim
transition Pending to Running of job 0. -/
theorem c1_status_edges_witness : statusEdgeExt exJob1.status exJob2.status = true :=
  c1_status_edges exS1 exS2 exS1_reachable (Step.claim exS1 0 rfl (by decide))
    exJob1 exJob2 (by decide) (by decide) rfl

/-- Claim C2: in every reachable state of the engine at most one job
of the table is Running — any two Running jobs are the same job.  The
proof goes through the inductive invariant EngineInv, whose runningCur
and phase clauses record exactly how the is_processing flag and
current_job pointer, written under the table lock, enforce the
single-flight discipline. -/
theorem c2_single_running (s : QueueState) (hr : Reachable s)
    (j1 j2 : Job) (h1 : j1 ∈ s.jobs) (h2 : j2 ∈ s.jobs)
    (hr1 : j1.status = JobStatus.running) (hr2 : j2.status = JobStatus.running) : j1 = j2 := by
  have hI := reachable_inv hr
  have e1 := (hI.runningCur j1 h1 hr1).2
  have e2 := (hI.runningCur j2 h2 hr2).2
  rw [e1] at e2
  exact eq_of_mem_id hI.nodupIds h2 h1 (Option.some_injective _ e2)

/-- Witness for c2_single_running at the reachable state exS2, which
holds the Running job exJob2. -/
theorem c2_single_running_witness :
    exJob2 ∈ exS2.jobs ∧ exJob2.status = JobStatus.running ∧ exJob2 = exJob2 :=
  ⟨by decide, by decide,
    c2_single_running exS2 exS2_reachable exJob2 exJob2 (by decide) (by decide)
      (by decide) (by decide)⟩

/-- Claim C3: cancel_job returns True exactly when the id names a
Pending or Running job; a Pending job becomes Cancelled with
completed_at set and its stream input untouched; a Running job becomes
Cancelled with completed_at set and the end signal appended to its
stream input; on False (unknown id or terminal status) the whole state
is unchanged; jobs with other ids are never touched. -/
theorem c3_cancel (s : QueueState) (id : Nat) (t : Rat) :
    ((cancelJob s id t).2 = true ↔
        ∃ j, findJob s.jobs id = some j ∧
          (j.status = JobStatus.pending ∨ j.status = JobStatus.running))
    ∧ (∀ j, findJob s.jobs id = some j → j.status = JobStatus.pending →
        findJob (cancelJob s id t).1.jobs id
          = some { j with status := JobStatus.cancelled, completedAt := some t })
    ∧ (∀ j, findJob s.jobs id = some j → j.status = JobStatus.running →
        findJob (cancelJob s id t).1.jobs id
          = some { j with streamInput := j.streamInput ++ ["end"],
                          status := JobStatus.cancelled, completedAt := some t })
    ∧ (∀ k, k ≠ id → findJob (cancelJob s id t).1.jobs k = findJob s.jobs k)
    ∧ ((cancelJob s id t).2 = false → (cancelJob s id t).1 = s) := by
  refine ⟨?_, ?_, ?_, ?_, ?_⟩
  · cases hf : findJob s.jobs id with
    | none => simp [cancelJob, hf]
    | some jf =>
        by_cases hpn : jf.status = JobStatus.pending
        · simp [cancelJob, hf, hpn]
        · by_cases hrn : jf.status = JobStatus.running
          · simp [cancelJob, hf, hpn, hrn]
          · simp [cancelJob, hf, hpn, hrn]
  · intro j hf hpn
    have he : (cancelJob s id t).1 = { s with jobs := updateJob s.jobs id (fun x => { x with status := JobStatus.cancelled, completedAt := some t }) } := by
      simp [cancelJob, hf, hpn]
    rw [he]
    exact findJob_updateJob_self hf (fun _ => rfl)
  · intro j hf hrn
    have hpn : ¬(j.status = JobStatus.pending) := by
      rw [hrn]
      decide
    have he : (cancelJob s id t).1 = { s with jobs := updateJob s.jobs id (fun x => { x with streamInput := x.streamInput ++ ["end"], status := JobStatus.cancelled, completedAt := some t }) } := by
      simp [cancelJob, hf, hpn, hrn]
    rw [he]
    exact findJob_updateJob_self hf (fun _ => rfl)
  · intro k hk
    cases hf : findJob s.jobs id with
    | none => simp [cancelJob, hf]
    | some jf =>
        by_cases hpn : jf.status = JobStatus.pending
        · have he : (cancelJob s id t).1 = { s with jobs := updateJob s.jobs id (fun x => { x with status := JobStatus.cancelled, completedAt := some t }) } := by
            simp [cancelJob, hf, hpn]
          rw [he]
          exact findJob_updateJob_ne hk (fun _ => rfl)
        · by_cases hrn : jf.status = JobStatus.running
          · have he : (cancelJob s id t).1 = { s with jobs := updateJob s.jobs id (fun x => { x with streamInput := x.streamInput ++ ["end"], status := JobStatus.cancelled, completedAt := some t }) } := by
              simp [cancelJob, hf, hpn, hrn]
            rw [he]
            exact findJob_updateJob_ne hk (fun _ => rfl)
          · have he : (cancelJob s id t).1 = s := by simp [cancelJob, hf, hpn, hrn]
            rw [he]
  · intro hb
    cases hf : findJob s.jobs id with
    | none => simp [cancelJob, hf]
    | some jf =>
        by_cases hpn : jf.status = JobStatus.pending
        · simp [cancelJob, hf, hpn] at hb
        · by_cases hrn : jf.status = JobStatus.running
          · simp [cancelJob, hf, hpn, hrn] at hb
          · simp [cancelJob, hf, hpn, hrn]

/-- Witness for c3_cancel: cancelling the Pending job 0 of exS1 at
time 3 succeeds, marks it Cancelled with completed_at 3 and pushes no
stream signal; cancelling an unknown id changes nothing. -/
theorem c3_cancel_witness :
    (cancelJob exS1 0 3).2 = true
    ∧ findJob (cancelJob exS1 0 3).1.jobs 0
        = some { exJob1 with status := JobStatus.cancelled, completedAt := some 3 }
    ∧ (cancelJob exS1 99 3).1 = exS1 := by
  refine ⟨by decide, ?_, ?_⟩
  · exact (c3_cancel exS1 0 3).2.1 exJob1 (by decide) (by decide)
  · exact (c3_cancel exS1 99 3).2.2.2.2 (by decide)

theorem exT2_reachable : Reachable exT2 :=
  Reachable.step (Reachable.step Reachable.init (Step.submit initState [] 5 true))
    (Step.submit exT1 [] 5 true)

theorem countP_lt_of_witness {α : Type} (l : List α) (p q : α → Bool)
    (himp : ∀ x ∈ l, p x = true → q x = true) (a : α) (ha : a ∈ l)
    (hpa : p a = false) (hqa : q a = true) : l.countP p < l.countP q := by
  induction l with
  | nil => cases ha
  | cons x xs ih =>
      have himp' : ∀ y ∈ xs, p y = true → q y = true := fun y hy =>
        himp y (List.mem_cons_of_mem _ hy)
      have hm : xs.countP p ≤ xs.countP q := List.countP_mono_left himp'
      rcases List.mem_cons.mp ha with he | ha'
      · subst he
        rw [List.countP_cons, List.countP_cons, hpa, hqa]
        simpa using Nat.lt_succ_of_le hm
      · have hlt := ih himp' ha'
        rw [List.countP_cons, List.countP_cons]
        by_cases hpx : p x = true
        · rw [hpx, himp x (List.mem_cons_self _ _) hpx]
          simpa using Nat.succ_lt_succ hlt
        · have hpx' : p x = false := by simpa using hpx
          rw [hpx']
          cases hqx : q x <;> simp <;> omega

/-- Claim C4 as stated is refuted on the tie-break sentence: in the
reachable state exT2 jobs 0 and 1 are both Pending with equal
created_at, job 1 arrived later (admission queue [0, 1]), yet
get_queue_position gives both position 1 — the code applies no
arrival-order tie-break, so positions are not strictly increasing with
later arrival. -/
theorem c4_counterexample :
    Reachable exT2
      ∧ exT2.queueIds = [0, 1]
      ∧ (findJob exT2.jobs 0).map Job.status = some JobStatus.pending
      ∧ (findJob exT2.jobs 1).map Job.status = some JobStatus.pending
      ∧ (findJob exT2.jobs 0).map Job.createdAt = (findJob exT2.jobs 1).map Job.createdAt
      ∧ getQueuePosition exT2 0 = some 1
      ∧ getQueuePosition exT2 1 = some 1 :=
  ⟨exT2_reachable, by decide, by decide, by decide, by decide, by decide, by decide⟩

/-- Claim C4 (amended): position is 0 for a Running job, none for an
unknown id or a terminal status, and for a Pending job 1 plus the
number of other Pending jobs with strictly earlier created_at.
Positions depend on created_at only: among Pending jobs they are
strictly increasing in strictly-increasing created_at, and jobs with
equal created_at receive equal positions (no arrival-order
tie-break). -/
theorem c4_position (s : QueueState) (id : Nat) (hn : (s.jobs.map Job.id).Nodup) :
    (findJob s.jobs id = Option.none → getQueuePosition s id = Option.none)
    ∧ (∀ j, findJob s.jobs id = some j → j.status = JobStatus.running →
        getQueuePosition s id = some 0)
    ∧ (∀ j, findJob s.jobs id = some j →
        (j.status = JobStatus.completed ∨ j.status = JobStatus.failed
          ∨ j.status = JobStatus.cancelled) →
        getQueuePosition s id = Option.none)
    ∧ (∀ j, findJob s.jobs id = some j → j.status = JobStatus.pending →
        getQueuePosition s id = some (1 + (s.jobs.filter
          (fun x => x.id != id && x.status == JobStatus.pending
            && decide (x.createdAt < j.createdAt))).length))
    ∧ (∀ j1 j2, j1 ∈ s.jobs → j2 ∈ s.jobs →
        j1.status = JobStatus.pending → j2.status = JobStatus.pending →
        j1.createdAt < j2.createdAt →
        ∃ p1 p2, getQueuePosition s j1.id = some p1
          ∧ getQueuePosition s j2.id = some p2 ∧ p1 < p2)
    ∧ (∀ j1 j2, j1 ∈ s.jobs → j2 ∈ s.jobs →
        j1.status = JobStatus.pending → j2.status = JobStatus.pending →
        j1.createdAt = j2.createdAt →
        getQueuePosition s j1.id = getQueuePosition s j2.id) := by
  refine ⟨?_, ?_, ?_, ?_, ?_, ?_⟩
  · intro hf
    simp [getQueuePosition, hf]
  · intro j hf hr
    simp [getQueuePosition, hf, hr]
  · intro j hf ht
    have hnr : ¬(j.status = JobStatus.running) := by
      rcases ht with h | h | h <;> rw [h] <;> decide
    have hnp : ¬(j.status = JobStatus.pending) := by
      rcases ht with h | h | h <;> rw [h] <;> decide
    simp [getQueuePosition, hf, hnr, hnp]
  · intro j hf hp
    have hnr : ¬(j.status = JobStatus.running) := by rw [hp]; decide
    have hcm : s.jobs.countP
          (fun x => x.status == JobStatus.pending && decide (x.createdAt < j.createdAt))
        = s.jobs.countP
          (fun x => x.id != id && (x.status == JobStatus.pending)
            && decide (x.createdAt < j.createdAt)) := by
      refine List.countP_congr ?_
      intro x hx
      by_cases hxi : x.id = id
      · have hxj : x = j := eq_of_mem_id hn (findJob_mem hf).1 hx
          (by rw [hxi, (findJob_mem hf).2])
        subst hxj
        simp
      · simp [hxi]
    have he : getQueuePosition s id = some (1 + s.jobs.countP (fun x => x.status == JobStatus.pending && decide (x.createdAt < j.createdAt))) := by
      simp [getQueuePosition, hf, hnr, hp]
    rw [he, hcm, List.countP_eq_length_filter]
  · intro j1 j2 h1 h2 hp1 hp2 hlt
    have hf1 := findJob_of_mem hn h1
    have hf2 := findJob_of_mem hn h2
    have hnr1 : ¬(j1.status = JobStatus.running) := by rw [hp1]; decide
    have hnr2 : ¬(j2.status = JobStatus.running) := by rw [hp2]; decide
    refine ⟨1 + s.jobs.countP (fun x => x.status == JobStatus.pending && decide (x.createdAt < j1.createdAt)), 1 + s.jobs.countP (fun x => x.status == JobStatus.pending && decide (x.createdAt < j2.createdAt)), by simp [getQueuePosition, hf1, hnr1, hp1], by simp [getQueuePosition, hf2, hnr2, hp2], ?_⟩
    have hcnt : s.jobs.countP
          (fun x => x.status == JobStatus.pending && decide (x.createdAt < j1.createdAt))
        < s.jobs.countP
          (fun x => x.status == JobStatus.pending && decide (x.createdAt < j2.createdAt)) := by
      refine countP_lt_of_witness s.jobs _ _ ?_ j1 h1 ?_ ?_
      · intro x hx hpx
        simp only [Bool.and_eq_true] at hpx ⊢
        exact ⟨hpx.1, decide_eq_true (lt_trans (of_decide_eq_true hpx.2) hlt)⟩
      · have hdf : decide (j1.createdAt < j1.createdAt) = false :=
          decide_eq_false (lt_irrefl _)
        simp [hdf]
      · simp only [Bool.and_eq_true]
        exact ⟨by simp [hp1], decide_eq_true hlt⟩
    omega
  · intro j1 j2 h1 h2 hp1 hp2 heq
    have hf1 := findJob_of_mem hn h1
    have hf2 := findJob_of_mem hn h2
    have hnr1 : ¬(j1.status = JobStatus.running) := by rw [hp1]; decide
    have hnr2 : ¬(j2.status = JobStatus.running) := by rw [hp2]; decide
    simp [getQueuePosition, hf1, hf2, hnr1, hnr2, hp1, hp2, heq]

/-- Witness for c4_position: in exT2 the two equal-timestamp Pending
jobs receive the same position 1. -/
theorem c4_position_witness :
    getQueuePosition exT2 0 = getQueuePosition exT2 1
    ∧ getQueuePosition exT2 0 = some 1 := by
  constructor
  · exact (c4_position exT2 0 (by decide)).2.2.2.2.2 exJobT0 exJobT1
      (by decide) (by decide) (by decide) (by decide) (by decide)
  · have h := (c4_position exT2 0 (by decide)).2.2.2.1 exJobT0 (by decide) (by decide)
    rw [h]
    decide

/-- Claim C7: whatever state the drain ended in, the finally block
clears the processing flag and the current-job pointer; a job still
Running is moved to Completed when job_completed is set and to Failed
with the interruption message otherwise, with completed_at recorded; a
job no longer Running (Cancelled, or already Failed by the except
handler) is left untouched by finalization; the routine-level except
handler records Failed with the exception text and completed_at; and
the outer error path also clears both flags and fails the current job
with the loop-error text. -/
theorem c7_finalize (s : QueueState) (jid : Nat) (c : Bool) (t : Rat) (msg : String)
    (j : Job) (hfind : findJob s.jobs jid = some j) :
    ((finalizeStep s jid c t).isProcessing = false
      ∧ (finalizeStep s jid c t).currentJob = Option.none)
    ∧ (j.status = JobStatus.running → c = true →
        findJob (finalizeStep s jid c t).jobs jid
          = some { j with status := JobStatus.completed, completedAt := some t })
    ∧ (j.status = JobStatus.running → c = false →
        findJob (finalizeStep s jid c t).jobs jid
          = some { j with status := JobStatus.failed,
                          error := some "Job processing was interrupted",
                          completedAt := some t })
    ∧ (j.status ≠ JobStatus.running → findJob (finalizeStep s jid c t).jobs jid = some j)
    ∧ findJob (routineErrorStep s jid msg t).jobs jid
        = some { j with status := JobStatus.failed, error := some msg, completedAt := some t }
    ∧ ((outerErrorStep s msg t).isProcessing = false
      ∧ (outerErrorStep s msg t).currentJob = Option.none)
    ∧ (∀ cid jc, s.currentJob = some cid → findJob s.jobs cid = some jc →
        findJob (outerErrorStep s msg t).jobs cid
          = some { jc with status := JobStatus.failed,
                           error := some ("Worker loop error: " ++ msg),
                           completedAt := some t }) := by
  have hidf : ∀ x : Job, (if x.status = JobStatus.running then if c then { x with status := JobStatus.completed, completedAt := some t } else { x with status := JobStatus.failed, error := some "Job processing was interrupted", completedAt := some t } else x).id = x.id := by
    intro x
    by_cases hr : x.status = JobStatus.running <;> cases c <;> simp [hr]
  have hfin := findJob_updateJob_self hfind hidf
  refine ⟨⟨rfl, rfl⟩, ?_, ?_, ?_, ?_, ?_, ?_⟩
  · intro hr hc
    rw [show (finalizeStep s jid c t).jobs = updateJob s.jobs jid _ from rfl, hfin]
    simp [hr, hc]
  · intro hr hc
    rw [show (finalizeStep s jid c t).jobs = updateJob s.jobs jid _ from rfl, hfin]
    simp [hr, hc]
  · intro hr
    rw [show (finalizeStep s jid c t).jobs = updateJob s.jobs jid _ from rfl, hfin]
    simp [hr]
  · exact findJob_updateJob_self hfind (fun _ => rfl)
  · constructor
    · cases hcur : s.currentJob <;> simp [outerErrorStep, hcur]
    · cases hcur : s.currentJob <;> simp [outerErrorStep, hcur]
  · intro cid jc hcur hfc
    have he : (outerErrorStep s msg t).jobs = updateJob s.jobs cid (fun x => { x with status := JobStatus.failed, error := some ("Worker loop error: " ++ msg), completedAt := some t }) := by
      simp [outerErrorStep, hcur]
    rw [he]
    exact findJob_updateJob_self hfc (fun _ => rfl)

/-- Witness for c7_finalize: finalizing the claimed job of exS2 with
job_completed set at time 7 completes it and clears the flags. -/
theorem c7_finalize_witness :
    ((finalizeStep exS2 0 true 7).isProcessing = false
      ∧ (finalizeStep exS2 0 true 7).currentJob = Option.none)
    ∧ findJob (finalizeStep exS2 0 true 7).jobs 0
        = some { exJob2 with status := JobStatus.completed, completedAt := some 7 } := by
  have h := c7_finalize exS2 0 true 7 "m" exJob2 (by decide)
  exact ⟨h.1, h.2.1 (by decide) rfl⟩

theorem serializeJob_dict (job : Job) (kvs : List (PyVal × PyVal)) (h : job.params = .dict kvs) :
    serializeJob job = .dict [(.str "id", .str (toString job.id)),
      (.str "status", .str job.status.value),
      (.str "created_at", .num job.createdAt),
      (.str "started_at", optRat job.startedAt),
      (.str "completed_at", optRat job.completedAt),
      (.str "error", optStr job.error),
      (.str "result", job.result.getD .none),
      (.str "queue_position", optRat job.queuePosition),
      (.str "generation_type", job.generationType),
      (.str "params", .dict (withLoraData kvs (kvs.filter paramEntryOk)))] := by
  unfold serializeJob
  rw [h]

theorem serializeJob_fallback (job : Job) (h : ∀ kvs, job.params ≠ .dict kvs) :
    serializeJob job = .dict [(.str "id", .str (toString job.id)),
      (.str "status", .str job.status.value),
      (.str "error", .str serializeFailureNote)] := by
  unfold serializeJob
  cases hp : job.params
  case dict kvs => exact absurd hp (h kvs)
  all_goals rfl

theorem mem_withLoraData {kvs sp : List (PyVal × PyVal)} {e : PyVal × PyVal}
    (h : e ∈ withLoraData kvs sp) : e.1 = .str "loras" ∨ e ∈ sp := by
  unfold withLoraData at h
  cases hsel : pyLookup kvs (.str "selected_loras") with
  | none =>
      rw [hsel] at h
      exact Or.inr h
  | some sv =>
      rw [hsel] at h
      simp only at h
      by_cases ht : truthy sv
      · rw [if_pos ht] at h
        rcases mem_dictSet h with he | he
        · left
          rw [he]
        · exact Or.inr he
      · rw [if_neg ht] at h
        exact Or.inr h

/-- Claim C8: for any job whose params is a mapping (the whole-record
success path), the snapshot record holds exactly the identifier,
status, the three timestamps, error, result, queue position,
generation type, and the params projection; no params entry keeps the
input_image / end_frame_image / stream keys; and the serializer never
reads the preview thumbnail — the record is invariant under changing
it. -/
theorem c8_record_shape (job : Job) (kvs : List (PyVal × PyVal)) (h : job.params = .dict kvs) :
    ∃ sp : List (PyVal × PyVal),
      serializeJob job = .dict [(.str "id", .str (toString job.id)),
        (.str "status", .str job.status.value),
        (.str "created_at", .num job.createdAt),
        (.str "started_at", optRat job.startedAt),
        (.str "completed_at", optRat job.completedAt),
        (.str "error", optStr job.error),
        (.str "result", job.result.getD .none),
        (.str "queue_position", optRat job.queuePosition),
        (.str "generation_type", job.generationType),
        (.str "params", .dict sp)]
      ∧ (∀ kv ∈ sp, kv.1 ≠ PyVal.str "input_image"
          ∧ kv.1 ≠ PyVal.str "end_frame_image" ∧ kv.1 ≠ PyVal.str "stream")
      ∧ (∀ th, serializeJob { job with thumbnail := th } = serializeJob job) := by
  refine ⟨withLoraData kvs (kvs.filter paramEntryOk), serializeJob_dict job kvs h, ?_, ?_⟩
  · intro kv hkv
    rcases mem_withLoraData hkv with he | he
    · rw [he]
      refine ⟨by decide, by decide, by decide⟩
    · have hok := (List.mem_filter.mp he).2
      simp only [paramEntryOk, Bool.and_eq_true, bne_iff_ne] at hok
      exact ⟨hok.1.1.1.1, hok.1.1.1.2, hok.1.1.2⟩
  · intro th
    rw [serializeJob_dict { job with thumbnail := th } kvs h, serializeJob_dict job kvs h]

/-- Witness for c8_record_shape at exJob8: the record has the ten
fields and the params projection lost the input_image key. -/
theorem c8_record_shape_witness :
    ∃ sp : List (PyVal × PyVal),
      recordGet (serializeJob exJob8) "params" = some (.dict sp)
      ∧ ∀ kv ∈ sp, kv.1 ≠ PyVal.str "input_image" := by
  rcases c8_record_shape exJob8 [(.str "input_image", .ndarray 2), (.str "seed", .num 31)] rfl with ⟨sp, hrec, hexcl, _⟩
  refine ⟨sp, ?_, fun kv hkv => (hexcl kv hkv).1⟩
  rw [show serializeJob exJob8 = _ from hrec]
  rfl

/-- Claim C5: the serializer is total and never loses the identity of
a job.  Every record it returns carries the id and status; when params
is a mapping, each individually non-JSON-serializable entry is dropped
from the params projection while the rest of the snapshot survives;
when the record build fails (params is not a mapping, the one failure
mode of the try body), the result is the minimal fallback record of
id, status and an error note. -/
theorem c5_serialize_total (job : Job) :
    recordGet (serializeJob job) "id" = some (.str (toString job.id))
    ∧ recordGet (serializeJob job) "status" = some (.str job.status.value)
    ∧ (∀ kvs, job.params = .dict kvs →
        ∃ sp, recordGet (serializeJob job) "params" = some (.dict sp)
          ∧ ∀ k v, (k, v) ∈ kvs → (jsonKeyOk k && jsonSerializable v) = false →
              k ≠ PyVal.str "loras" → (k, v) ∉ sp)
    ∧ ((∀ kvs, job.params ≠ .dict kvs) →
        recordGet (serializeJob job) "error" = some (.str serializeFailureNote)) := by
  by_cases hd : ∃ kvs, job.params = .dict kvs
  · rcases hd with ⟨kvs, hp⟩
    rw [serializeJob_dict job kvs hp]
    refine ⟨rfl, rfl, ?_, ?_⟩
    · intro kvs' hp'
      have hek : kvs' = kvs := by
        rw [hp] at hp'
        cases hp'
        rfl
      subst hek
      refine ⟨withLoraData kvs' (kvs'.filter paramEntryOk), rfl, ?_⟩
      intro k v hmem hbad hlk hcontra
      rcases mem_withLoraData hcontra with he | he
      · exact hlk he
      · have hok := (List.mem_filter.mp he).2
        simp only [paramEntryOk, Bool.and_eq_true] at hok
        rw [hok.1.2, hok.2] at hbad
        cases hbad
    · intro hnd
      exact absurd hp (hnd kvs)
  · have hnd : ∀ kvs, job.params ≠ .dict kvs := fun kvs h => hd ⟨kvs, h⟩
    rw [serializeJob_fallback job hnd]
    exact ⟨rfl, rfl, fun kvs hp => absurd hp (hnd kvs), fun _ => rfl⟩

/-- Witness for c5_serialize_total: exJob5 serializes with its id, the
ndarray entry dropped from the params projection, and exJob5b (broken
params) still yields a record with its id and the error note. -/
theorem c5_serialize_total_witness :
    recordGet (serializeJob exJob5) "id" = some (.str "9")
    ∧ (∃ sp, recordGet (serializeJob exJob5) "params" = some (.dict sp)
        ∧ (PyVal.str "bad", PyVal.ndarray 3) ∉ sp)
    ∧ recordGet (serializeJob exJob5b) "error" = some (.str serializeFailureNote) := by
  refine ⟨(c5_serialize_total exJob5).1, ?_, ?_⟩
  · rcases (c5_serialize_total exJob5).2.2.1 _ rfl with ⟨sp, hsp, hdrop⟩
    exact ⟨sp, hsp, hdrop (.str "bad") (.ndarray 3) (by decide) (by decide) (by decide)⟩
  · exact (c5_serialize_total exJob5b).2.2.2 (fun kvs h => by cases h)

theorem pyIndex_not_mem (xs : List PyVal) (k : PyVal) (hk : k ∉ xs) :
    pyIndex xs k = Option.none := by
  induction xs with
  | nil => rfl
  | cons a l ih =>
      have ha : ¬(a = k) := fun he => hk (he ▸ List.mem_cons_self a l)
      simp [pyIndex, ha, ih (fun hm => hk (List.mem_cons_of_mem _ hm))]

theorem resolveLoraWeight_not_mem (ns vs : List PyVal) (k : PyVal) (hk : k ∉ ns) :
    resolveLoraWeight ns vs k = 1 := by
  cases ns with
  | nil =>
      have hneg : decide ((0 : Int) ≤ -1) = false := rfl
      simp [resolveLoraWeight, loraIndex, hneg, floatOf]
  | cons a l =>
      have hpi : pyIndex (a :: l) k = Option.none := pyIndex_not_mem _ _ hk
      simp [resolveLoraWeight, loraIndex, hpi]

theorem buildLoraAux_lookup_not_mem (ns vs : List PyVal) (sel : List PyVal)
    (acc : List (PyVal × PyVal)) (k : PyVal) (hk : k ∉ sel) :
    pyLookup (buildLoraAux ns vs acc sel) k = pyLookup acc k := by
  induction sel generalizing acc with
  | nil => rfl
  | cons n rest ih =>
      have hkn : k ≠ n := fun he => hk (he ▸ List.mem_cons_self n rest)
      have hkr : k ∉ rest := fun hr => hk (List.mem_cons_of_mem _ hr)
      rw [buildLoraAux, ih _ hkr, pyLookup_dictSet_ne _ _ _ _ hkn]

theorem buildLoraAux_lookup_mem (ns vs : List PyVal) (sel : List PyVal)
    (acc : List (PyVal × PyVal)) (k : PyVal) (hk : k ∈ sel) :
    pyLookup (buildLoraAux ns vs acc sel) k
      = some (.num (resolveLoraWeight ns vs k)) := by
  induction sel generalizing acc with
  | nil => cases hk
  | cons n rest ih =>
      by_cases hkr : k ∈ rest
      · rw [buildLoraAux]
        exact ih _ hkr
      · have hkn : k = n := by
          rcases List.mem_cons.mp hk with he | he
          · exact he
          · exact absurd he hkr
        subst hkn
        rw [buildLoraAux, buildLoraAux_lookup_not_mem _ _ _ _ _ hkr,
          pyLookup_dictSet_self]

/-- Claim C6: when params holds a non-empty selected_loras list next
to lora_loaded_names and lora_values lists, the serialized params gain
a loras entry mapping each selected name (in order) to the weight
resolved by resolveLoraWeight; for a name found in the loaded-name
list this reads the parallel weight (unwrapping a one-element list),
and any failed lookup (name absent, empty lists) or failed float
conversion yields the suppressed-default 1.0. -/
theorem c6_lora_projection (job : Job) (kvs : List (PyVal × PyVal)) (ss ns vs : List PyVal)
    (h : job.params = .dict kvs)
    (hsel : pyLookup kvs (.str "selected_loras") = some (.list ss))
    (hne : ss ≠ [])
    (hln : pyLookup kvs (.str "lora_loaded_names") = some (.list ns))
    (hlv : pyLookup kvs (.str "lora_values") = some (.list vs)) :
    (∃ sp, recordGet (serializeJob job) "params" = some (.dict sp)
       ∧ pyLookup sp (.str "loras") = some (.dict (buildLoraData ns vs ss)))
    ∧ (∀ name, name ∈ ss → pyLookup (buildLoraData ns vs ss) name
        = some (.num (resolveLoraWeight ns vs name)))
    ∧ (∀ name, name ∉ ns → resolveLoraWeight ns vs name = 1) := by
  have ht : truthy (.list ss) = true := by
    cases ss with
    | nil => exact absurd rfl hne
    | cons a l => rfl
  have hw : withLoraData kvs (kvs.filter paramEntryOk)
      = dictSet (kvs.filter paramEntryOk) (.str "loras") (.dict (buildLoraData ns vs ss)) := by
    simp [withLoraData, hsel, ht, pyGet, hln, hlv, asPyList, buildLoraData]
  refine ⟨⟨withLoraData kvs (kvs.filter paramEntryOk), ?_, ?_⟩, ?_, ?_⟩
  · rw [serializeJob_dict job kvs h]
    rfl
  · rw [hw]
    exact pyLookup_dictSet_self _ _ _
  · intro name hname
    exact buildLoraAux_lookup_mem ns vs ss [] name hname
  · intro name hname
    exact resolveLoraWeight_not_mem ns vs name hname

/-- Witness for c6_lora_projection: the spec scenario produces
params.loras equal to the mapping x to 0.7. -/
theorem c6_lora_projection_witness :
    ∃ sp, recordGet (serializeJob exJob6) "params" = some (.dict sp)
      ∧ pyLookup sp (.str "loras") = some (.dict [(.str "x", .num (mkRat 7 10))]) := by
  rcases (c6_lora_projection exJob6 _ [.str "x"] [.str "x", .str "y"]
      [.num (mkRat 7 10), .num (mkRat 3 10)] rfl (by decide) (by decide)
      (by decide) (by decide)).1 with ⟨sp, h1, h2⟩
  refine ⟨sp, h1, ?_⟩
  rw [h2]
  decide

/-- Claim C9: add_job returns the identifier of a freshly created job
stored Pending with generation_type = params.get("model_type",
"Original"), created_at from the clock and the caller params attached;
and the whole call, state and returned id included, is independent of
whether the snapshot persist to queue.json succeeds — both the inner
try of save_queue_to_json and the wrapper try of add_job swallow the
failure. -/
theorem c9_submit (s : QueueState) (kvs : List (PyVal × PyVal)) (t : Rat) (pf : Bool)
    (hb : ∀ j ∈ s.jobs, j.id < s.nextId) :
    (addJob s kvs t pf).2 = s.nextId
    ∧ (∃ j, findJob (addJob s kvs t pf).1.jobs (addJob s kvs t pf).2 = some j
        ∧ j.status = JobStatus.pending
        ∧ j.generationType = pyGet kvs (.str "model_type") (.str "Original")
        ∧ j.params = .dict kvs ∧ j.createdAt = t)
    ∧ (∀ pf', addJob s kvs t pf' = addJob s kvs t pf) := by
  refine ⟨rfl, ⟨mkJobFromDict s.nextId kvs t, ?_, rfl, rfl, rfl, rfl⟩, fun _ => rfl⟩
  exact findJob_append_new (fun j' hj' => Nat.ne_of_lt (hb j' hj'))

/-- Witness for c9_submit: submitting a params mapping with
model_type F1 to a fresh queue yields id 0, a Pending job with
generation_type F1, and the same result whether or not the persist
step would fail. -/
theorem c9_submit_witness :
    (addJob initState [(.str "model_type", .str "F1")] 2 false).2 = 0
    ∧ (∃ j, findJob (addJob initState [(.str "model_type", .str "F1")] 2 false).1.jobs 0
        = some j ∧ j.status = JobStatus.pending ∧ j.generationType = .str "F1")
    ∧ addJob initState [(.str "model_type", .str "F1")] 2 true
        = addJob initState [(.str "model_type", .str "F1")] 2 false := by
  have h := c9_submit initState [(.str "model_type", .str "F1")] 2 false
    (by intro j hj; cases hj)
  refine ⟨h.1, ?_, h.2.2 true⟩
  rcases h.2.1 with ⟨j, hf, hpend, hgen, _, _⟩
  refine ⟨j, hf, hpend, ?_⟩
  rw [hgen]
  decide

/-- Claim C10: a job built from params that provide neither a
non-None input_image nor any latent_type key gets no thumbnail, and
likewise when input_image is present and non-None but neither an image
array nor a string. -/
theorem c10_no_thumbnail (kvs : List (PyVal × PyVal)) (id : Nat) (t : Rat) :
    ((pyLookup kvs (.str "input_image") = Option.none
        ∨ pyLookup kvs (.str "input_image") = some PyVal.none) →
      pyLookup kvs (.str "latent_type") = Option.none →
      (mkJobFromDict id kvs t).thumbnail = Option.none)
    ∧ (∀ v, pyLookup kvs (.str "input_image") = some v → v ≠ PyVal.none →
        (∀ tg, v ≠ PyVal.ndarray tg) → (∀ st, v ≠ PyVal.str st) →
        (mkJobFromDict id kvs t).thumbnail = Option.none) := by
  constructor
  · intro hii hlt
    rcases hii with hii | hii <;> simp [mkJobFromDict, thumbInit, hii, hlt]
  · intro v hii hv hnd hns
    have hth : (thumbInit kvs).2.2 = Option.none := by
      simp only [thumbInit, hii]
      rw [if_neg hv]
    simpa [mkJobFromDict] using hth

/-- Witness for c10_no_thumbnail: a prompt-only params mapping and a
params mapping whose input_image is a bool both produce jobs without a
thumbnail. -/
theorem c10_no_thumbnail_witness :
    (mkJobFromDict 0 [(.str "prompt", .str "p")] 0).thumbnail = Option.none
    ∧ (mkJobFromDict 1 [(.str "input_image", .bool true)] 0).thumbnail = Option.none := by
  constructor
  · exact (c10_no_thumbnail [(.str "prompt", .str "p")] 0 0).1 (Or.inl (by decide)) (by decide)
  · exact (c10_no_thumbnail [(.str "input_image", .bool true)] 1 0).2 (.bool true)
      (by decide) (by decide) (fun tg h => by simp at h) (fun st h => by simp at h)
